import Mathlib

set_option maxRecDepth 100000

/-!
Verification of the `advanced-cuckoo-filter` repository
(`src/AdvancedCuckooFilter.js`), which contains two filter
implementations:

* an integer-fingerprint variant (CommonJS class, lines 7-346): slots hold
  small integer fingerprints with `null` as the empty sentinel, hashes are
  plain JS number arithmetic (`_hash` via int32 shift/add, `_hash2` via an
  FNV-style loop whose multiplications are IEEE-754 double multiplications);
* a buffer-fingerprint variant (ES module, lines 350-584): slots hold byte
  buffers produced by a crypto digest (default sha256), buckets are growable
  arrays bounded by `bucketSize`, with resize and parquet/JSON persistence.

The embedding below reproduces the JavaScript semantics exactly where the
claims depend on it: 32-bit `ToInt32` wrapping for `^ | & << >>>`, the
truncated sign-following `%`, IEEE double rounding of the `_hash2`
multiplications, out-of-range array reads yielding `undefined` (and the
`TypeError` crashes that follow), and `Math.random()` modelled as an
explicit stream of draws covering every outcome the real generator can
produce.  The crypto digest of the buffer variant is a parameter (the class
accepts any `hashAlgorithm`); sha256, the default, is implemented
concretely for evaluating counterexamples.
-/

/-! ## JavaScript 32-bit integer primitives -/

/-- Unsigned 32-bit pattern of a JS number that holds an integral value:
`ToUint32`. -/
def pat (x : Int) : Nat := (x % (4294967296 : Int)).toNat

/-- Reinterpret a 32-bit pattern as a signed int32 (`ToInt32` result). -/
def sint32 (p : Nat) : Int :=
  if p < 2147483648 then (p : Int) else (p : Int) - 4294967296

/-- JS `ToInt32` on an integral number. -/
def toInt32 (x : Int) : Int := sint32 (pat x)

/-- JS `a ^ b` on integral numbers. -/
def jsXor (a b : Int) : Int := sint32 ((pat a) ^^^ (pat b))

/-- JS `a | b` on integral numbers. -/
def jsOr (a b : Int) : Int := sint32 ((pat a) ||| (pat b))

/-- JS `a & b` on integral numbers. -/
def jsAnd (a b : Int) : Int := sint32 ((pat a) &&& (pat b))

/-- JS `a << b` on integral numbers (shift count is `b` mod 32). -/
def jsShl (a b : Int) : Int := sint32 (((pat a) <<< ((pat b) % 32)) % 4294967296)

/-- JS `a >>> b` on integral numbers (unsigned shift, result nonnegative). -/
def jsShrU (a b : Int) : Int := ((pat a) >>> ((pat b) % 32) : Nat)

/-- JS `a % b`: truncated remainder, sign follows the dividend. -/
def jsRem (a b : Int) : Int := Int.tmod a b

/-- Bit length of `n` (`fuel`-driven so that kernel reduction is cheap;
`fuel = 64` covers every value the hash loop produces). -/
def bitLen (fuel n : Nat) : Nat :=
  match fuel with
  | 0 => 0
  | f + 1 => if n = 0 then 0 else bitLen f (n / 2) + 1

/-- Round an exact integer to the nearest IEEE-754 double
(round-to-nearest, ties-to-even), as JS multiplication does when the exact
product exceeds 53 bits. -/
def roundDouble (z : Int) : Int :=
  let a := z.natAbs
  if a < 9007199254740992 then z
  else
    let e := bitLen 64 a - 53
    let q := a >>> e
    let r := a % 2 ^ e
    let half := 2 ^ (e - 1)
    let q2 := if half < r ∨ (r = half ∧ q % 2 = 1) then q + 1 else q
    if z < 0 then -((q2 <<< e : Nat) : Int) else ((q2 <<< e : Nat) : Int)

/-- Decimal digit character codes of `n`, most significant first
(`fuel`-driven; `fuel` larger than the digit count). -/
def digitsRev (fuel n : Nat) : List Nat :=
  match fuel with
  | 0 => []
  | f + 1 => if n < 10 then [n + 48] else (n % 10 + 48) :: digitsRev f (n / 10)

/-- Character codes of JS `Number.prototype.toString()` for an integral
value (integer fingerprints are far below the 1e21 exponent-notation
threshold). -/
def intToStringCodes (x : Int) : List Nat :=
  if x < 0 then 45 :: (digitsRev x.natAbs x.natAbs).reverse
  else (digitsRev (x.natAbs + 1) x.natAbs).reverse

/-! ## Integer-variant hash functions (`_hash`, `_hash2`) -/

/-- The `_hash` string hash: `hash = ((hash << 5) - hash) + char; hash |= 0`
per character, then `Math.abs`.  Characters are UTF-16 code units. -/
def jsHash (s : List Nat) : Nat :=
  (s.foldl (fun h c => toInt32 (jsShl h 5 - h + (c : Int))) 0).natAbs

/-- The `_hash2` FNV-variation: `hash ^= char; hash *= 16777619` per
character of `value.toString()`, starting from 2166136261, with the
multiplication performed in IEEE doubles, then `Math.abs`.  The argument is
the already-stringified value. -/
def jsHash2 (s : List Nat) : Nat :=
  (s.foldl (fun h c => roundDouble (jsXor h (c : Int) * 16777619)) 2166136261).natAbs

/-- Character codes of the `'fingerprint'` domain-separation tag. -/
def fpTag : List Nat := [102, 105, 110, 103, 101, 114, 112, 114, 105, 110, 116]

/-- The `_generateFingerprint` derivation: hash of `item + 'fingerprint'`
masked to `fingerprintMask`, remapping `0` to `1`. -/
def genFingerprint (fingerprintMask : Int) (item : List Nat) : Int :=
  let f := jsAnd (jsHash (item ++ fpTag) : Int) fingerprintMask
  if f = 0 then 1 else f

/-- One `n |= n >>> s` smear statement of `_nextPowerOf2`. -/
def smearStep (a : Int) (s : Nat) : Int := jsOr a (jsShrU a (s : Int))

/-- The `_nextPowerOf2` bit-smearing routine, with JS `|`/`>>>` semantics:
`n--` followed by the five `n |= n >>> s` statements and `n++`. -/
def nextPowerOf2 (n : Int) : Int :=
  smearStep (smearStep (smearStep (smearStep (smearStep (n - 1) 1) 2) 4) 8) 16 + 1

/-! ## Integer-variant data model

JavaScript values that can occupy a bucket slot or travel through the kick
loop: `null` (the empty-slot sentinel), `undefined` (out-of-range array
reads), or a number. -/

inductive JSVal where
  | null : JSVal
  | undef : JSVal
  | num : Int → JSVal
deriving DecidableEq, Repr

/-- Exceptions the integer-variant methods can throw. -/
inductive JSErr where
  | nullInsert
  | typeError
  | rangeError
  | invalidCapacity
deriving DecidableEq, Repr

/-- State of the integer-fingerprint `AdvancedCuckooFilter` (CommonJS
class).  `getStats` is a pure projection of these fields and is not
modelled separately. -/
structure IntFilter where
  capacity : Nat
  bucketSize : Nat
  fingerprintBits : Int
  maxNumKicks : Int
  size : Int
  fingerprintMask : Int
  buckets : List (List JSVal)
  insertions : Nat
  kicks : Nat
deriving DecidableEq, Repr

/-- The constructor: rejects non-positive (or falsy) `capacity`; the other
parameters are stored unvalidated.  `capacity` is rounded up with
`_nextPowerOf2` (whose int32 arithmetic keeps the result in `[0, 2^31]`,
so the `new Array(capacity)` call cannot throw; for arguments in
`(2^31, 2^32]` it collapses to `0`).  A negative `bucketSize` makes
`new Array(bucketSize)` in the fill loop throw a `RangeError`, but only
when the loop runs at all, i.e. when the computed capacity is positive. -/
def intCtor (capacity bucketSize fingerprintBits maxNumKicks : Int) :
    Except JSErr IntFilter :=
  if capacity ≤ 0 then .error .invalidCapacity
  else
    let cap := (nextPowerOf2 capacity).toNat
    if 0 < cap ∧ bucketSize < 0 then .error .rangeError
    else
      .ok { capacity := cap
            bucketSize := bucketSize.toNat
            fingerprintBits := fingerprintBits
            maxNumKicks := maxNumKicks
            size := 0
            fingerprintMask := jsShl 1 fingerprintBits - 1
            buckets := List.replicate cap (List.replicate bucketSize.toNat JSVal.null)
            insertions := 0
            kicks := 0 }

/-- Read `bucket[i]`: out-of-range indices read as `undefined`. -/
def bucketRead (b : List JSVal) (i : Nat) : JSVal := b.getD i JSVal.undef

/-- Write `bucket[i] = v`: JS arrays grow on out-of-range writes, padding
skipped indices with holes that read back as `undefined`. -/
def bucketWrite (b : List JSVal) (i : Nat) (v : JSVal) : List JSVal :=
  if i < b.length then b.set i v
  else b ++ List.replicate (i - b.length) JSVal.undef ++ [v]

/-- Read `this.buckets[index]`: `none` models `undefined` (negative or
too-large index). -/
def bucketsRead (f : IntFilter) (index : Int) : Option (List JSVal) :=
  if index < 0 then none else f.buckets[index.toNat]?

/-- Replace bucket `index` (only used with indices already validated). -/
def setBucketAt (f : IntFilter) (index : Int) (b : List JSVal) : IntFilter :=
  { f with buckets := f.buckets.set index.toNat b }

/-- First position in `[start, start+count)` whose slot satisfies `p`. -/
def scanSlot (b : List JSVal) (p : JSVal → Bool) (start count : Nat) : Option Nat :=
  match count with
  | 0 => none
  | k + 1 => if p (bucketRead b start) then some start else scanSlot b p (start + 1) k

/-- The `_insertIntoBucket` method: linear scan of the first `bucketSize`
slots for `=== null`; accessing a slot of an `undefined` bucket throws
(unless `bucketSize = 0`, in which case the loop body never runs). -/
def insertIntoBucket (f : IntFilter) (index : Int) (fp : JSVal) :
    Except JSErr (Bool × IntFilter) :=
  match bucketsRead f index with
  | none => if f.bucketSize = 0 then .ok (false, f) else .error .typeError
  | some b =>
    match scanSlot b (fun v => v == JSVal.null) 0 f.bucketSize with
    | some i => .ok (true, setBucketAt f index (bucketWrite b i fp))
    | none => .ok (false, f)

/-- The `_bucketContainsFingerprint` method. -/
def containsFp (f : IntFilter) (index : Int) (fp : JSVal) : Except JSErr Bool :=
  match bucketsRead f index with
  | none => if f.bucketSize = 0 then .ok false else .error .typeError
  | some b =>
    match scanSlot b (fun v => v == fp) 0 f.bucketSize with
    | some _ => .ok true
    | none => .ok false

/-- The `_removeFromBucket` method: nulls the first matching slot. -/
def removeFromBucket (f : IntFilter) (index : Int) (fp : JSVal) :
    Except JSErr (Bool × IntFilter) :=
  match bucketsRead f index with
  | none => if f.bucketSize = 0 then .ok (false, f) else .error .typeError
  | some b =>
    match scanSlot b (fun v => v == fp) 0 f.bucketSize with
    | some i => .ok (true, setBucketAt f index (bucketWrite b i JSVal.null))
    | none => .ok (false, f)

/-- The `_hash2` entry point as called with a slot value:
`value.toString()` throws a `TypeError` on `null`/`undefined`. -/
def hash2OfVal (v : JSVal) : Except JSErr Nat :=
  match v with
  | .num n => .ok (jsHash2 (intToStringCodes n))
  | _ => .error .typeError

/-- Core of `_getSecondBucketIndex`: `(i1 ^ hash2) % capacity` with JS
int32 XOR and truncated remainder. -/
def gIdx (cap : Nat) (h2 : Nat) (i1 : Int) : Int :=
  jsRem (jsXor i1 (h2 : Int)) (cap : Int)

/-- The `_getSecondBucketIndex` method. -/
def getSecondBucketIndex (f : IntFilter) (i1 : Int) (v : JSVal) :
    Except JSErr Int :=
  match hash2OfVal v with
  | .error e => .error e
  | .ok h2 => .ok (gIdx f.capacity h2 i1)

/-- One `Math.random()` draw from an explicit stream (any outcome of the
real generator corresponds to some stream). -/
def draw (s : List Nat) : Nat × List Nat := (s.headD 0, s.tail)

/-- The cuckoo-kick loop of `insert` (lines 76-96): swap the in-flight
fingerprint into a random slot, move to the displaced fingerprint's
alternate bucket, try to place it, repeat up to `maxNumKicks` times.
`.ok false` is the exhausted-budget outcome (the method then returns
`false`).  Thrown errors leave the mutations already applied. -/
def kickLoop (f : IntFilter) (fuel : Nat) (curIdx : Int) (curFp : JSVal)
    (s : List Nat) : Except JSErr Bool × IntFilter × List Nat :=
  match fuel with
  | 0 => (.ok false, f, s)
  | n + 1 =>
    let f1 := { f with kicks := f.kicks + 1 }
    let (r, s1) := draw s
    let randPos := if f1.bucketSize = 0 then 0 else r % f1.bucketSize
    match bucketsRead f1 curIdx with
    | none => (.error .typeError, f1, s1)
    | some b =>
      let old := bucketRead b randPos
      let f2 := setBucketAt f1 curIdx (bucketWrite b randPos curFp)
      match getSecondBucketIndex f2 curIdx old with
      | .error e => (.error e, f2, s1)
      | .ok nextIdx =>
        match insertIntoBucket f2 nextIdx old with
        | .error e => (.error e, f2, s1)
        | .ok (true, f3) =>
          (.ok true, { f3 with size := f3.size + 1, insertions := f3.insertions + 1 }, s1)
        | .ok (false, f3) => kickLoop f3 n nextIdx old s1

/-- The `insert` method: throws on `null`/`undefined` items, tries both
candidate buckets, then kicks; on kick exhaustion it returns `false`
(the displaced fingerprint held in the local is dropped, and no resize
happens). -/
def insertInt (f : IntFilter) (item : Option (List Nat)) (s : List Nat) :
    Except JSErr Bool × IntFilter × List Nat :=
  match item with
  | none => (.error .nullInsert, f, s)
  | some it =>
    let fp : Int := genFingerprint f.fingerprintMask it
    let i1 : Int := jsRem (jsHash it : Int) (f.capacity : Int)
    match getSecondBucketIndex f i1 (.num fp) with
    | .error e => (.error e, f, s)
    | .ok i2 =>
      match insertIntoBucket f i1 (.num fp) with
      | .error e => (.error e, f, s)
      | .ok (true, f1) =>
        (.ok true, { f1 with size := f1.size + 1, insertions := f1.insertions + 1 }, s)
      | .ok (false, f1) =>
        match insertIntoBucket f1 i2 (.num fp) with
        | .error e => (.error e, f1, s)
        | .ok (true, f2) =>
          (.ok true, { f2 with size := f2.size + 1, insertions := f2.insertions + 1 }, s)
        | .ok (false, f2) =>
          let (r, s1) := draw s
          let start := if r % 2 = 0 then i1 else i2
          kickLoop f2 f2.maxNumKicks.toNat start (.num fp) s1

/-- The `lookup` method: `null`/`undefined` yield `false`; otherwise check
the two candidate buckets with JS short-circuit `||`. -/
def lookupInt (f : IntFilter) (item : Option (List Nat)) : Except JSErr Bool :=
  match item with
  | none => .ok false
  | some it =>
    let fp : Int := genFingerprint f.fingerprintMask it
    let i1 : Int := jsRem (jsHash it : Int) (f.capacity : Int)
    match getSecondBucketIndex f i1 (.num fp) with
    | .error e => .error e
    | .ok i2 =>
      match containsFp f i1 (.num fp) with
      | .error e => .error e
      | .ok true => .ok true
      | .ok false => containsFp f i2 (.num fp)

/-- The `remove` method. -/
def removeInt (f : IntFilter) (item : Option (List Nat)) :
    Except JSErr Bool × IntFilter :=
  match item with
  | none => (.ok false, f)
  | some it =>
    let fp : Int := genFingerprint f.fingerprintMask it
    let i1 : Int := jsRem (jsHash it : Int) (f.capacity : Int)
    match getSecondBucketIndex f i1 (.num fp) with
    | .error e => (.error e, f)
    | .ok i2 =>
      match removeFromBucket f i1 (.num fp) with
      | .error e => (.error e, f)
      | .ok (true, f1) => (.ok true, { f1 with size := f1.size - 1 })
      | .ok (false, f1) =>
        match removeFromBucket f1 i2 (.num fp) with
        | .error e => (.error e, f1)
        | .ok (true, f2) => (.ok true, { f2 with size := f2.size - 1 })
        | .ok (false, f2) => (.ok false, f2)

/-- The `clear` method. -/
def clearInt (f : IntFilter) : IntFilter :=
  { f with
    buckets := List.replicate f.capacity (List.replicate f.bucketSize JSVal.null)
    size := 0
    insertions := 0
    kicks := 0 }

/-- The `getLoadFactor` method, `size / (capacity * bucketSize)` as an
exact rational (the JS division; `capacity * bucketSize = 0` would give
`NaN` in JS and `0` here, so bound statements carry that product positive). -/
def getLoadFactor (f : IntFilter) : ℚ :=
  (f.size : ℚ) / ((f.capacity * f.bucketSize : Nat) : ℚ)

/-- Number of occupied (non-`null`) slots across all buckets. -/
def countOccupied (bkts : List (List JSVal)) : Nat :=
  (bkts.map (fun b => b.countP (fun v => !(v == JSVal.null)))).sum

/-! ## SHA-256 (the buffer variant's default `hashAlgorithm`)

Implemented over byte lists so concrete executions of the buffer variant
can be evaluated inside Lean. -/

/-- Byte lists (JS `Buffer` contents). -/
abbrev Bytes := List Nat

/-- SHA-256 round constants. -/
def shaK : List Nat := [
  1116352408, 1899447441, 3049323471, 3921009573, 961987163, 1508970993,
  2453635748, 2870763221, 3624381080, 310598401, 607225278, 1426881987,
  1925078388, 2162078206, 2614888103, 3248222580, 3835390401, 4022224774,
  264347078, 604807628, 770255983, 1249150122, 1555081692, 1996064986,
  2554220882, 2821834349, 2952996808, 3210313671, 3336571891, 3584528711,
  113926993, 338241895, 666307205, 773529912, 1294757372, 1396182291,
  1695183700, 1986661051, 2177026350, 2456956037, 2730485921, 2820302411,
  3259730800, 3345764771, 3516065817, 3600352804, 4094571909, 275423344,
  430227734, 506948616, 659060556, 883997877, 958139571, 1322822218,
  1537002063, 1747873779, 1955562222, 2024104815, 2227730452, 2361852424,
  2428436474, 2756734187, 3204031479, 3329325298
]

/-- SHA-256 initial state. -/
def shaH0 : List Nat := [
  1779033703, 3144134277, 1013904242, 2773480762, 1359893119, 2600822924,
  528734635, 1541459225
]

/-- Rotate a 32-bit word right by `n`. -/
def rotr32 (x n : Nat) : Nat := ((x >>> n) ||| (x <<< (32 - n))) % 4294967296

/-- Big-endian 4-byte encoding. -/
def be4 (n : Nat) : Bytes :=
  [n / 16777216 % 256, n / 65536 % 256, n / 256 % 256, n % 256]

/-- Big-endian 8-byte encoding. -/
def be8 (n : Nat) : Bytes := be4 (n / 4294967296) ++ be4 (n % 4294967296)

/-- SHA-256 message padding. -/
def shaPad (msg : Bytes) : Bytes :=
  msg ++ 128 :: List.replicate ((119 - msg.length % 64) % 64) 0 ++ be8 (8 * msg.length)

/-- Group bytes into big-endian 32-bit words. -/
def toWords : Bytes → List Nat
  | b0 :: b1 :: b2 :: b3 :: rest =>
    (b0 * 16777216 + b1 * 65536 + b2 * 256 + b3) :: toWords rest
  | _ => []

/-- Extend the 16 block words by `k` more schedule words (list reversed:
head is the newest word). -/
def schedAux (wRev : List Nat) : Nat → List Nat
  | 0 => wRev
  | k + 1 =>
    let g := fun j => wRev.getD j 0
    let s0 := (rotr32 (g 14) 7) ^^^ (rotr32 (g 14) 18) ^^^ ((g 14) >>> 3)
    let s1 := (rotr32 (g 1) 17) ^^^ (rotr32 (g 1) 19) ^^^ ((g 1) >>> 10)
    schedAux (((g 15 + s0 + g 6 + s1) % 4294967296) :: wRev) k

/-- The 64 compression rounds; state is `[a,b,c,d,e,f,g,h]`. -/
def shaRounds : List (Nat × Nat) → List Nat → List Nat
  | [], st => st
  | (k, w) :: rest, st =>
    let a := st.getD 0 0
    let b := st.getD 1 0
    let c := st.getD 2 0
    let d := st.getD 3 0
    let e := st.getD 4 0
    let f := st.getD 5 0
    let g := st.getD 6 0
    let h := st.getD 7 0
    let bigS1 := rotr32 e 6 ^^^ rotr32 e 11 ^^^ rotr32 e 25
    let ch := (e &&& f) ^^^ ((e ^^^ 4294967295) &&& g)
    let t1 := (h + bigS1 + ch + k + w) % 4294967296
    let bigS0 := rotr32 a 2 ^^^ rotr32 a 13 ^^^ rotr32 a 22
    let mj := (a &&& b) ^^^ (a &&& c) ^^^ (b &&& c)
    let t2 := (bigS0 + mj) % 4294967296
    shaRounds rest [(t1 + t2) % 4294967296, a, b, c, (d + t1) % 4294967296, e, f, g]

/-- Compress the 64-byte blocks of `bytes` into the running state
(`fuel`-driven recursion over the byte list). -/
def shaBlocks (fuel : Nat) (bytes : Bytes) (st : List Nat) : List Nat :=
  match fuel with
  | 0 => st
  | f + 1 =>
    match bytes with
    | [] => st
    | _ =>
      let w := (schedAux (toWords (bytes.take 64)).reverse 48).reverse
      let st2 := shaRounds (shaK.zip w) st
      shaBlocks f (bytes.drop 64) (st.zipWith (fun x y => (x + y) % 4294967296) st2)

/-- SHA-256 digest of a byte list. -/
def sha256 (msg : Bytes) : Bytes :=
  let padded := shaPad msg
  ((shaBlocks (padded.length) padded shaH0).map be4).flatten

/-! ## Buffer-variant data model (ES-module class)

The crypto digest is a parameter `D` (the class accepts any
`hashAlgorithm`; `sha256` is the default).  `autoPersist` defaults to off
and the lifecycle hooks default to absent, so `save`-on-mutate and hook
invocation are no-ops and are not modelled; file I/O is modelled at the
record level (parquet rows / parsed JSON), the codec containers being
external libraries. -/

/-- Errors of the buffer variant: `typeError` for property access on
`undefined`, `resizeFailed` for the thrown `new Error('Resize failed')`,
`io` for storage/decoding failures surfaced by `fs`/`parquetjs`, and
`outOfFuel` for exceeding the modelled recursion depth of the
`insert → _resize → insert` cycle (the JS function has no such bound). -/
inductive BufErr where
  | typeError
  | resizeFailed
  | io
  | outOfFuel
deriving DecidableEq, Repr

/-- State of the buffer-fingerprint `AdvancedCuckooFilter`. -/
structure BufFilter where
  bucketCount : Nat
  bucketSize : Nat
  fingerprintSize : Nat
  maxKicks : Nat
  buckets : List (List Bytes)
deriving DecidableEq, Repr

/-- The buffer-variant constructor: stores the options unvalidated and
allocates `bucketCount` empty buckets. -/
def bufCtor (bucketCount bucketSize fingerprintSize maxKicks : Nat) : BufFilter :=
  { bucketCount := bucketCount
    bucketSize := bucketSize
    fingerprintSize := fingerprintSize
    maxKicks := maxKicks
    buckets := List.replicate bucketCount [] }

/-- The `_hash(data, seed)` method: digest of the 4-byte big-endian seed
concatenated with the data. -/
def bufHash (D : Bytes → Bytes) (data : Bytes) (seed : Nat) : Bytes :=
  D (be4 seed ++ data)

/-- `Buffer.readUInt32BE(0)`. -/
def readUInt32BE (b : Bytes) : Nat :=
  b.getD 0 0 * 16777216 + b.getD 1 0 * 65536 + b.getD 2 0 * 256 + b.getD 3 0

/-- Lowercase hex character code of a nibble. -/
def hexDigit (n : Nat) : Nat := if n < 10 then n + 48 else n + 87

/-- `buf.toString('hex')` as character codes. -/
def toHex (b : Bytes) : Bytes :=
  (b.map (fun x => [hexDigit (x / 16), hexDigit (x % 16)])).flatten

/-- Value of a hex character code. -/
def hexVal (c : Nat) : Option Nat :=
  if 48 ≤ c ∧ c ≤ 57 then some (c - 48)
  else if 97 ≤ c ∧ c ≤ 102 then some (c - 87)
  else if 65 ≤ c ∧ c ≤ 70 then some (c - 55)
  else none

/-- `Buffer.from(str, 'hex')`: consume hex pairs, stopping at invalid
input. -/
def fromHex : Bytes → Bytes
  | c1 :: c2 :: rest =>
    match hexVal c1, hexVal c2 with
    | some a, some b => (16 * a + b) :: fromHex rest
    | _, _ => []
  | _ => []

/-- The `_fingerprint` method: first `fingerprintSize` bytes of the
seed-0 digest. -/
def bufFingerprint (D : Bytes → Bytes) (f : BufFilter) (item : Bytes) : Bytes :=
  (bufHash D item 0).take f.fingerprintSize

/-- The `_index` method: first digest word mod `bucketCount`. -/
def bufIndex (D : Bytes → Bytes) (f : BufFilter) (item : Bytes) : Nat :=
  readUInt32BE (bufHash D item 0) % f.bucketCount

/-- The `_altIndex` method: `((index ^ fpHash) % m + m) % m` with JS int32
XOR and truncated remainders, normalising into `[0, bucketCount)`. -/
def bufAltIndex (D : Bytes → Bytes) (f : BufFilter) (fp : Bytes) (index : Nat) : Nat :=
  let fpHash := bufHash D (toHex fp) 1
  let raw := jsXor (index : Int) (readUInt32BE fpHash : Int)
  (jsRem (jsRem raw (f.bucketCount : Int) + (f.bucketCount : Int)) (f.bucketCount : Int)).toNat

/-- The `_tryInsert` method: push if the bucket has room.  Accessing an
out-of-range bucket throws. -/
def tryInsertB (f : BufFilter) (index : Nat) (fp : Bytes) :
    Except BufErr (Bool × BufFilter) :=
  match f.buckets[index]? with
  | none => .error .typeError
  | some b =>
    if b.length < f.bucketSize then
      .ok (true, { f with buckets := f.buckets.set index (b ++ [fp]) })
    else .ok (false, f)

/-- Write `bucket[rand] = v` (in the kick swap `rand ≤ length` always, the
equality case extending an empty bucket). -/
def bucketWriteB (b : List Bytes) (i : Nat) (v : Bytes) : List Bytes :=
  if i < b.length then b.set i v else b ++ [v]

/-- The kick loop of the buffer-variant `insert`: swap into a random slot,
follow the displaced fingerprint to its alternate bucket, try to place.
`.ok false` marks an exhausted kick budget (the method then resizes). -/
def kickLoopB (D : Bytes → Bytes) (f : BufFilter) (fuel : Nat) (index : Nat)
    (cur : Bytes) (s : List Nat) : Except BufErr Bool × BufFilter × List Nat :=
  match fuel with
  | 0 => (.ok false, f, s)
  | n + 1 =>
    match f.buckets[index]? with
    | none => (.error .typeError, f, s)
    | some b =>
      let (r, s1) := draw s
      let rand := if b.length = 0 then 0 else r % b.length
      let old? := b[rand]?
      let f1 := { f with buckets := f.buckets.set index (bucketWriteB b rand cur) }
      match old? with
      | none => (.error .typeError, f1, s1)
      | some old =>
        let j := bufAltIndex D f1 old index
        match tryInsertB f1 j old with
        | .error e => (.error e, f1, s1)
        | .ok (true, f2) => (.ok true, f2, s1)
        | .ok (false, f2) => kickLoopB D f2 n j old s1

/-- Reseat one carried-over fingerprint during `_resize`/`loadFromParquet`:
primary index recomputed from the fingerprint's hex text. -/
def reseatOne (D : Bytes → Bytes) (f : BufFilter) (fp : Bytes) :
    Except BufErr Unit × BufFilter :=
  let i1 := bufIndex D f (toHex fp)
  match tryInsertB f i1 fp with
  | .error e => (.error e, f)
  | .ok (true, f1) => (.ok (), f1)
  | .ok (false, f1) =>
    let i2 := bufAltIndex D f1 fp i1
    match tryInsertB f1 i2 fp with
    | .error e => (.error e, f1)
    | .ok (true, f2) => (.ok (), f2)
    | .ok (false, f2) => (.error .resizeFailed, f2)

/-- Reseat a list of fingerprints, aborting (with the partial state, as a
JS `throw` leaves it) on the first failure. -/
def reseatList (D : Bytes → Bytes) (fps : List Bytes) (f : BufFilter) :
    Except BufErr Unit × BufFilter :=
  match fps with
  | [] => (.ok (), f)
  | fp :: rest =>
    match reseatOne D f fp with
    | (.error e, f1) => (.error e, f1)
    | (.ok _, f1) => reseatList D rest f1

/-- The `_resize` method: double `bucketCount`, allocate fresh buckets,
reseat every stored fingerprint (primary index from the fingerprint hex). -/
def resizeB (D : Bytes → Bytes) (f : BufFilter) : Except BufErr Unit × BufFilter :=
  let fps := f.buckets.flatten
  let f1 := { f with
    bucketCount := f.bucketCount * 2
    buckets := List.replicate (f.bucketCount * 2) ([] : List Bytes) }
  reseatList D fps f1

/-- The buffer-variant `insert`: direct placement, then kicking, and on an
exhausted kick budget `_resize` followed by a recursive retry of the
original item.  `fuel` bounds the recursion depth of the model (the JS
recursion is unbounded). -/
def insertB (D : Bytes → Bytes) (fuel : Nat) (f : BufFilter) (item : Bytes)
    (s : List Nat) : Except BufErr Bool × BufFilter × List Nat :=
  match fuel with
  | 0 => (.error .outOfFuel, f, s)
  | n + 1 =>
    let fp := bufFingerprint D f item
    let i1 := bufIndex D f item
    let i2 := bufAltIndex D f fp i1
    match tryInsertB f i1 fp with
    | .error e => (.error e, f, s)
    | .ok (true, f1) => (.ok true, f1, s)
    | .ok (false, f1) =>
      match tryInsertB f1 i2 fp with
      | .error e => (.error e, f1, s)
      | .ok (true, f2) => (.ok true, f2, s)
      | .ok (false, f2) =>
        let (r, s1) := draw s
        let idx0 := if r % 2 = 0 then i1 else i2
        match kickLoopB D f2 f2.maxKicks idx0 fp s1 with
        | (.ok true, f3, s2) => (.ok true, f3, s2)
        | (.ok false, f3, s2) =>
          match resizeB D f3 with
          | (.error e, f4) => (.error e, f4, s2)
          | (.ok _, f4) => insertB D n f4 item s2
        | (.error e, f3, s2) => (.error e, f3, s2)

/-- The `contains` method (short-circuit `||` over the two buckets). -/
def containsB (D : Bytes → Bytes) (f : BufFilter) (item : Bytes) :
    Except BufErr Bool :=
  let fp := bufFingerprint D f item
  let i1 := bufIndex D f item
  let i2 := bufAltIndex D f fp i1
  match f.buckets[i1]? with
  | none => .error .typeError
  | some b1 =>
    if b1.contains fp then .ok true
    else
      match f.buckets[i2]? with
      | none => .error .typeError
      | some b2 => .ok (b2.contains fp)

/-- The `delete` method: splice out the first match in either candidate
bucket. -/
def deleteB (D : Bytes → Bytes) (f : BufFilter) (item : Bytes) :
    Except BufErr Bool × BufFilter :=
  let fp := bufFingerprint D f item
  let i1 := bufIndex D f item
  let i2 := bufAltIndex D f fp i1
  match f.buckets[i1]? with
  | none => (.error .typeError, f)
  | some b1 =>
    match b1.findIdx? (fun x => x == fp) with
    | some i => (.ok true, { f with buckets := f.buckets.set i1 (b1.eraseIdx i) })
    | none =>
      match f.buckets[i2]? with
      | none => (.error .typeError, f)
      | some b2 =>
        match b2.findIdx? (fun x => x == fp) with
        | some j => (.ok true, { f with buckets := f.buckets.set i2 (b2.eraseIdx j) })
        | none => (.ok false, f)

/-- The `stats().items` count (total stored fingerprints). -/
def statsItems (f : BufFilter) : Nat := (f.buckets.map List.length).sum

/-- The `saveToParquet` record stream: one row per stored fingerprint, in
bucket order. -/
def saveToParquetB (f : BufFilter) : List Bytes := f.buckets.flatten

/-- Process the parquet record stream of `loadFromParquet`: place each
fingerprint by its hex-derived indices, resizing when both are full (the
post-resize placement result is discarded, as in the source). -/
def loadRecs (D : Bytes → Bytes) (records : List Bytes) (f : BufFilter) :
    Except BufErr Unit × BufFilter :=
  match records with
  | [] => (.ok (), f)
  | fp :: rest =>
    let i1 := bufIndex D f (toHex fp)
    match tryInsertB f i1 fp with
    | .error e => (.error e, f)
    | .ok (true, f1) => loadRecs D rest f1
    | .ok (false, f1) =>
      let i2 := bufAltIndex D f1 fp i1
      match tryInsertB f1 i2 fp with
      | .error e => (.error e, f1)
      | .ok (true, f2) => loadRecs D rest f2
      | .ok (false, f2) =>
        match resizeB D f2 with
        | (.error e, f3) => (.error e, f3)
        | (.ok _, f3) =>
          let j1 := bufIndex D f3 (toHex fp)
          match tryInsertB f3 j1 fp with
          | .error e => (.error e, f3)
          | .ok (true, f4) => loadRecs D rest f4
          | .ok (false, f4) =>
            let j2 := bufAltIndex D f4 fp j1
            match tryInsertB f4 j2 fp with
            | .error e => (.error e, f4)
            | .ok (_, f5) => loadRecs D rest f5

/-- The `loadFromParquet` method, reading a stream that delivers `records`
and then either ends cleanly (`fail = false`) or raises a storage/decoding
error (`fail = true`).  Records already placed stay in the filter when the
error is thrown. -/
def loadFromParquetB (D : Bytes → Bytes) (f : BufFilter) (records : List Bytes)
    (fail : Bool) : Except BufErr Unit × BufFilter :=
  match loadRecs D records f with
  | (.error e, f1) => (.error e, f1)
  | (.ok _, f1) => if fail then (.error .io, f1) else (.ok (), f1)

/-- The `saveToJSON` payload: buckets of hex strings. -/
def saveToJSONB (f : BufFilter) : List (List Bytes) :=
  f.buckets.map (fun b => b.map toHex)

/-- The `loadFromJSON` method: `none` models a read/parse failure (thrown
before `this.buckets` is assigned); on success the bucket array is replaced
wholesale by the decoded payload. -/
def loadFromJSONB (f : BufFilter) (payload : Option (List (List Bytes))) :
    Except BufErr Unit × BufFilter :=
  match payload with
  | none => (.error .io, f)
  | some d => (.ok (), { f with buckets := d.map (fun b => b.map fromHex) })

/-! ## Ghost instance tracking (integer variant)

To state the no-false-negative property for one specific fingerprint
instance, the operations are mirrored with a ghost `TrackSt` recording
where that instance currently lives.  Projection lemmas below prove the
mirrored functions compute exactly the un-tracked operations. -/

/-- Location of one tracked fingerprint instance: resident in a slot,
in-flight inside the current kick loop, or gone (dropped, overwritten by
the exhausted-budget drop, or removed). -/
inductive TrackSt where
  | res (b p : Nat) : TrackSt
  | fly : TrackSt
  | gone : TrackSt
deriving DecidableEq, Repr

/-- `_insertIntoBucket`, additionally reporting which slot was filled. -/
def insertIntoBucketTr (f : IntFilter) (index : Int) (fp : JSVal) :
    Except JSErr (Option Nat × IntFilter) :=
  match bucketsRead f index with
  | none => if f.bucketSize = 0 then .ok (none, f) else .error .typeError
  | some b =>
    match scanSlot b (fun v => v == JSVal.null) 0 f.bucketSize with
    | some i => .ok (some i, setBucketAt f index (bucketWrite b i fp))
    | none => .ok (none, f)

/-- `_removeFromBucket`, additionally reporting which slot was nulled. -/
def removeFromBucketTr (f : IntFilter) (index : Int) (fp : JSVal) :
    Except JSErr (Option Nat × IntFilter) :=
  match bucketsRead f index with
  | none => if f.bucketSize = 0 then .ok (none, f) else .error .typeError
  | some b =>
    match scanSlot b (fun v => v == fp) 0 f.bucketSize with
    | some i => .ok (some i, setBucketAt f index (bucketWrite b i JSVal.null))
    | none => .ok (none, f)

/-- Drop the in-flight marker (a crash or the exhausted kick budget loses
the carried fingerprint). -/
def dropFly (t : TrackSt) : TrackSt := if t = .fly then .gone else t

/-- The kick loop with ghost tracking.  The ghost updates: a swap that
overwrites the tracked slot puts the instance in flight; a swap or
placement of the in-flight instance records its new slot; exhaustion or a
thrown error drops an in-flight instance. -/
def kickLoopTr (f : IntFilter) (fuel : Nat) (curIdx : Int) (curFp : JSVal)
    (s : List Nat) (t : TrackSt) :
    (Except JSErr Bool × IntFilter × List Nat) × TrackSt :=
  match fuel with
  | 0 => ((.ok false, f, s), dropFly t)
  | n + 1 =>
    let f1 := { f with kicks := f.kicks + 1 }
    let (r, s1) := draw s
    let randPos := if f1.bucketSize = 0 then 0 else r % f1.bucketSize
    match bucketsRead f1 curIdx with
    | none => ((.error .typeError, f1, s1), dropFly t)
    | some b =>
      let old := bucketRead b randPos
      let f2 := setBucketAt f1 curIdx (bucketWrite b randPos curFp)
      let t1 : TrackSt :=
        match t with
        | .fly => .res curIdx.toNat randPos
        | .res bi pi => if bi = curIdx.toNat ∧ pi = randPos then .fly else .res bi pi
        | .gone => .gone
      match getSecondBucketIndex f2 curIdx old with
      | .error e => ((.error e, f2, s1), dropFly t1)
      | .ok nextIdx =>
        match insertIntoBucketTr f2 nextIdx old with
        | .error e => ((.error e, f2, s1), dropFly t1)
        | .ok (some slot, f3) =>
          ((.ok true, { f3 with size := f3.size + 1, insertions := f3.insertions + 1 }, s1),
            if t1 = .fly then .res nextIdx.toNat slot else t1)
        | .ok (none, f3) => kickLoopTr f3 n nextIdx old s1 t1

/-- The `insert` method with ghost tracking.  Passing `t = .fly` tracks
the fingerprint instance this very call creates. -/
def insertTr (f : IntFilter) (item : Option (List Nat)) (s : List Nat) (t : TrackSt) :
    (Except JSErr Bool × IntFilter × List Nat) × TrackSt :=
  match item with
  | none => ((.error .nullInsert, f, s), t)
  | some it =>
    let fp : Int := genFingerprint f.fingerprintMask it
    let i1 : Int := jsRem (jsHash it : Int) (f.capacity : Int)
    match getSecondBucketIndex f i1 (.num fp) with
    | .error e => ((.error e, f, s), dropFly t)
    | .ok i2 =>
      match insertIntoBucketTr f i1 (.num fp) with
      | .error e => ((.error e, f, s), dropFly t)
      | .ok (some slot, f1) =>
        ((.ok true, { f1 with size := f1.size + 1, insertions := f1.insertions + 1 }, s),
          if t = .fly then .res i1.toNat slot else t)
      | .ok (none, f1) =>
        match insertIntoBucketTr f1 i2 (.num fp) with
        | .error e => ((.error e, f1, s), dropFly t)
        | .ok (some slot, f2) =>
          ((.ok true, { f2 with size := f2.size + 1, insertions := f2.insertions + 1 }, s),
            if t = .fly then .res i2.toNat slot else t)
        | .ok (none, f2) =>
          let (r, s1) := draw s
          let start := if r % 2 = 0 then i1 else i2
          kickLoopTr f2 f2.maxNumKicks.toNat start (.num fp) s1 t

/-- The `remove` method with ghost tracking: removing the tracked slot
itself makes the instance gone. -/
def removeTr (f : IntFilter) (item : Option (List Nat)) (t : TrackSt) :
    (Except JSErr Bool × IntFilter) × TrackSt :=
  match item with
  | none => ((.ok false, f), t)
  | some it =>
    let fp : Int := genFingerprint f.fingerprintMask it
    let i1 : Int := jsRem (jsHash it : Int) (f.capacity : Int)
    match getSecondBucketIndex f i1 (.num fp) with
    | .error e => ((.error e, f), t)
    | .ok i2 =>
      match removeFromBucketTr f i1 (.num fp) with
      | .error e => ((.error e, f), t)
      | .ok (some slot, f1) =>
        (((.ok true, { f1 with size := f1.size - 1 })),
          if t = .res i1.toNat slot then .gone else t)
      | .ok (none, f1) =>
        match removeFromBucketTr f1 i2 (.num fp) with
        | .error e => ((.error e, f1), t)
        | .ok (some slot, f2) =>
          ((.ok true, { f2 with size := f2.size - 1 }),
            if t = .res i2.toNat slot then .gone else t)
        | .ok (none, f2) => ((.ok false, f2), t)

/-! ## Reachability -/

/-- Integer-variant states reachable from a fresh constructor call through
any sequence of `insert`/`remove`/`clear` calls, with any items and any
`Math.random()` outcomes.  Calls that throw are included: a JS exception
leaves the mutations already applied.  Constructor capacities are
restricted to `c ≤ 2^31`, beyond which `_nextPowerOf2`'s int32 arithmetic
collapses the capacity to zero and every operation just crashes. -/
inductive ReachInt : IntFilter → Prop where
  | create {c bs fb mk : Int} {f : IntFilter} (hcap : c ≤ 2147483648)
      (hok : intCtor c bs fb mk = .ok f) : ReachInt f
  | insert {f : IntFilter} (item : Option (List Nat)) (s : List Nat) :
      ReachInt f → ReachInt (insertInt f item s).2.1
  | remove {f : IntFilter} (item : Option (List Nat)) :
      ReachInt f → ReachInt (removeInt f item).2
  | clear {f : IntFilter} : ReachInt f → ReachInt (clearInt f)

/-- Buffer-variant states reachable from a fresh constructor call (with at
least one bucket) through any sequence of `insert`/`delete` calls. -/
inductive ReachBuf (D : Bytes → Bytes) : BufFilter → Prop where
  | create {bucketCount bucketSize fingerprintSize maxKicks : Nat}
      (hm : 0 < bucketCount) :
      ReachBuf D (bufCtor bucketCount bucketSize fingerprintSize maxKicks)
  | insert {f : BufFilter} (fuel : Nat) (item : Bytes) (s : List Nat) :
      ReachBuf D f → ReachBuf D (insertB D fuel f item s).2.1
  | delete {f : BufFilter} (item : Bytes) :
      ReachBuf D f → ReachBuf D (deleteB D f item).2

/-- A tracked history for item `X`: it begins when an `insert X` call
completes successfully (returns `true`) on some reachable filter, the
ghost state then recording where X's fingerprint instance landed, and
follows arbitrary further `insert`/`remove`/`clear` calls.  While the
ghost state is still `.res b p`, no operation has removed that specific
instance. -/
inductive TrackedRun (X : List Nat) : IntFilter → TrackSt → Prop where
  | start {f : IntFilter} {s : List Nat} {out : Except JSErr Bool × IntFilter × List Nat}
      {t1 : TrackSt} (hf : ReachInt f)
      (h : insertTr f (some X) s .fly = (out, t1)) (hok : out.1 = .ok true) :
      TrackedRun X out.2.1 t1
  | insert {f : IntFilter} {t : TrackSt} (item : Option (List Nat)) (s : List Nat)
      {out : Except JSErr Bool × IntFilter × List Nat} {t1 : TrackSt} :
      TrackedRun X f t → insertTr f item s t = (out, t1) → TrackedRun X out.2.1 t1
  | remove {f : IntFilter} {t : TrackSt} (item : Option (List Nat))
      {out : Except JSErr Bool × IntFilter} {t1 : TrackSt} :
      TrackedRun X f t → removeTr f item t = (out, t1) → TrackedRun X out.2 t1
  | clear {f : IntFilter} {t : TrackSt} : TrackedRun X f t → TrackedRun X (clearInt f) .gone

/-! ## Invariants -/

/-- Number of occupied slots in one bucket. -/
def cntOcc (b : List JSVal) : Nat := b.countP (fun v => !(v == JSVal.null))

/-- Structural well-formedness of integer-variant states: power-of-two
capacity, one list entry per bucket, fixed bucket length, and the `size`
field agreeing with the occupied-slot count (for `bucketSize = 0` no
insertion ever succeeds and `size` stays zero while crashing kick loops
may still write slots). -/
def WFInt (f : IntFilter) : Prop :=
  (∃ k, k ≤ 31 ∧ f.capacity = 2 ^ k) ∧
  f.buckets.length = f.capacity ∧
  (0 < f.bucketSize →
    (∀ b ∈ f.buckets, b.length = f.bucketSize) ∧
    f.size = (countOccupied f.buckets : Int)) ∧
  (f.bucketSize = 0 → f.size = 0)

/-- The primary bucket index the code computes for an item. -/
def itemIdx (f : IntFilter) (X : List Nat) : Int :=
  jsRem (jsHash X : Int) (f.capacity : Int)

/-- The `_hash2` value of an item's fingerprint. -/
def h2OfItem (f : IntFilter) (X : List Nat) : Nat :=
  jsHash2 (intToStringCodes (genFingerprint f.fingerprintMask X))

/-- What the ghost state being `.res b p` guarantees: the slot holds X's
fingerprint and sits in one of X's two candidate buckets. -/
def TrackInv (X : List Nat) (f : IntFilter) : TrackSt → Prop
  | .res bi pi =>
    0 < f.bucketSize ∧ bi < f.capacity ∧ pi < f.bucketSize ∧
    (∃ b, f.buckets[bi]? = some b ∧
      bucketRead b pi = .num (genFingerprint f.fingerprintMask X)) ∧
    ((bi : Int) = itemIdx f X ∨
      (bi : Int) = gIdx f.capacity (h2OfItem f X) (itemIdx f X))
  | .fly => False
  | .gone => True

/-- Occupancy contribution of one slot value. -/
def occOf (v : JSVal) : Nat := if v = JSVal.null then 0 else 1

/-- Structural well-formedness of buffer-variant states: one list entry
per bucket and (for a positive `bucketSize`) no bucket over capacity. -/
def WFBuf (f : BufFilter) : Prop :=
  f.buckets.length = f.bucketCount ∧
  (0 < f.bucketSize → ∀ b ∈ f.buckets, b.length ≤ f.bucketSize)

/-! ## Concrete states for the claim witnesses and counterexamples -/

def c2Base : IntFilter :=
  { capacity := 4, bucketSize := 4, fingerprintBits := 8, maxNumKicks := 500,
    size := 0, fingerprintMask := 255,
    buckets := List.replicate 4 (List.replicate 4 JSVal.null), insertions := 0, kicks := 0 }

def c2State : IntFilter := (insertTr c2Base (some [97]) [] TrackSt.fly).1.2.1

def c3F0 : IntFilter :=
  { capacity := 1, bucketSize := 1, fingerprintBits := 8, maxNumKicks := 1,
    size := 0, fingerprintMask := 255,
    buckets := [[JSVal.null]], insertions := 0, kicks := 0 }

def c3F1 : IntFilter := (insertInt c3F0 (some [97]) []).2.1

def c3D : Bytes → Bytes := fun _ => []

def c3BufF : BufFilter := bufCtor 1 0 1 0

def c3BufRes : BufFilter := (resizeB c3D c3BufF).2

def c4F0 : BufFilter := bufCtor 2 1 1 1

def c4F1 : BufFilter := (insertB sha256 1 c4F0 [97] []).2.1

def c4F2 : BufFilter := (insertB sha256 1 c4F1 [98] []).2.1

def c4F3 : BufFilter := (insertB sha256 2 c4F2 [100] []).2.1

def c5F0 : BufFilter := bufCtor 4 4 1 1

def c5F : BufFilter := (insertB sha256 1 c5F0 [97] []).2.1

def c5R : BufFilter := (loadFromParquetB sha256 c5F0 (saveToParquetB c5F) false).2

def c6F0 : BufFilter := bufCtor 2 1 1 1

def c8F : BufFilter := (insertB sha256 1 (bufCtor 1 0 1 1) [97] []).2.1

def c9F : IntFilter :=
  { capacity := 4, bucketSize := 0, fingerprintBits := 8, maxNumKicks := 500,
    size := 0, fingerprintMask := 255,
    buckets := List.replicate 4 [], insertions := 0, kicks := 0 }


/-! ## Arithmetic facts about the alternate-index computations -/

lemma xorModTwoPow (a b k : Nat) : (a ^^^ b) % 2 ^ k = a % 2 ^ k ^^^ b % 2 ^ k := by
  apply Nat.eq_of_testBit_eq
  intro i
  simp only [Nat.testBit_mod_two_pow, Nat.testBit_xor]
  by_cases h : i < k <;> simp [h]

lemma pat_ofNat (n : Nat) : pat (n : Int) = n % 4294967296 := by
  unfold pat; omega

lemma pat_lt (x : Int) : pat x < 4294967296 := by
  unfold pat; omega

lemma sint32_of_lt {p : Nat} (h : p < 2147483648) : sint32 p = (p : Int) := by
  unfold sint32; rw [if_pos h]

lemma sint32_of_ge {p : Nat} (h : 2147483648 ≤ p) : sint32 p = (p : Int) - 4294967296 := by
  unfold sint32; rw [if_neg (by omega)]

lemma tmod_ofNat (m n : Nat) : Int.tmod (m : Int) (n : Int) = ((m % n : Nat) : Int) :=
  (Int.ofNat_tmod m n).symm

lemma tmod_negSucc (m n : Nat) :
    Int.tmod (Int.negSucc m) ((n : Nat) : Int) = -(((m + 1) % n : Nat) : Int) := rfl

-- x in [2^31, 2^32) as an Int minus 2^32 is the negSucc of (2^32 - 1 - x)
lemma intSub_as_negSucc {x : Nat} (hx : x < 4294967296) :
    (x : Int) - 4294967296 = Int.negSucc (4294967295 - x) := by
  rw [Int.negSucc_eq]
  omega

lemma modPow_collapse {h2 k : Nat} (hk : k ≤ 32) : h2 % 4294967296 % 2 ^ k = h2 % 2 ^ k := by
  have : (2:Nat) ^ k ∣ 4294967296 := by
    have h := pow_dvd_pow 2 hk
    norm_num at h
    exact h
  exact Nat.mod_mod_of_dvd h2 this

lemma subModPow {x k : Nat} (hx : x ≤ 4294967296) (hk : k ≤ 32) :
    (4294967296 - x) % 2 ^ k = (2 ^ k - x % 2 ^ k) % 2 ^ k := by
  have hdvd : (2:Nat) ^ k ∣ 4294967296 := by
    have h := pow_dvd_pow 2 hk
    norm_num at h
    exact h
  obtain ⟨c, hc⟩ := hdvd
  set d := (2:Nat) ^ k with hd
  have hpos : 0 < d := Nat.pos_pow_of_pos k (by norm_num)
  set r := x % d with hr
  set q := x / d with hq
  have hdm : d * q + r = x := Nat.div_add_mod x d
  have hrlt : r < d := Nat.mod_lt _ hpos
  rcases Nat.eq_zero_or_pos r with h0 | h0
  · have hxdq : x = d * q := by omega
    have hqc : q ≤ c := by
      by_contra hgt
      push_neg at hgt
      have h2 : d * (c + 1) ≤ d * q := Nat.mul_le_mul_left d (Nat.succ_le_of_lt hgt)
      rw [Nat.mul_succ] at h2
      omega
    have e1 : d * (c - q) + d * q = d * c := by
      rw [← Nat.mul_add]
      congr 1
      omega
    have lhsEq : 4294967296 - x = d * (c - q) := by omega
    rw [lhsEq, h0, Nat.sub_zero, Nat.mul_mod_right, Nat.mod_self]
  · have hqc : q < c := by
      by_contra hge
      push_neg at hge
      have : d * c ≤ d * q := Nat.mul_le_mul_left d hge
      omega
    set u := c - q - 1 with hu
    have e1 : d * c = d * q + d * u + d := by
      have hcq : c = q + u + 1 := by omega
      rw [hcq]
      ring
    have lhsEq : 4294967296 - x = d * u + (d - r) := by omega
    rw [lhsEq, Nat.mul_add_mod]

lemma jsXor_nat (i h2 : Nat) (hi : i < 4294967296) :
    jsXor (i : Int) (h2 : Int) = sint32 (i ^^^ h2 % 4294967296) := by
  unfold jsXor
  rw [pat_ofNat, pat_ofNat, Nat.mod_eq_of_lt hi]

lemma two_pow_le_31 {k : Nat} (hk : k ≤ 31) : (2:Nat) ^ k ≤ 2147483648 := by
  calc (2:Nat) ^ k ≤ 2 ^ 31 := Nat.pow_le_pow_right (by norm_num) hk
    _ = 2147483648 := by norm_num

/-- Case A of `_getSecondBucketIndex`: when the int32 reading of the hash
is nonnegative, the computation is plain XOR with the hash's low bits. -/
lemma gIdx_caseA {k : Nat} (hk : k ≤ 31) {h2 : Nat}
    (hA : h2 % 4294967296 < 2147483648) {i : Nat} (hi : i < 2 ^ k) :
    gIdx (2 ^ k) h2 (i : Int) = ((i ^^^ h2 % 2 ^ k : Nat) : Int) := by
  have hi31 : i < 2147483648 := lt_of_lt_of_le hi (two_pow_le_31 hk)
  have hi32 : i < 4294967296 := by omega
  unfold gIdx jsRem
  rw [jsXor_nat _ _ hi32]
  have hx31 : i ^^^ h2 % 4294967296 < 2147483648 := by
    have h1 : i < 2 ^ 31 := by omega
    have h2b : h2 % 4294967296 < 2 ^ 31 := by omega
    have := Nat.xor_lt_two_pow h1 h2b
    omega
  rw [sint32_of_lt hx31, tmod_ofNat, xorModTwoPow, Nat.mod_eq_of_lt hi,
    modPow_collapse (by omega)]

/-- Case B: when the int32 reading of the hash is negative, the result is
`-((2^k - (i ^^^ low)) % 2^k)` (zero exactly when `i` equals the hash's low
bits). -/
lemma gIdx_caseB {k : Nat} (hk : k ≤ 31) {h2 : Nat}
    (hB : 2147483648 ≤ h2 % 4294967296) {i : Nat} (hi : i < 2 ^ k) :
    gIdx (2 ^ k) h2 (i : Int) = -(((2 ^ k - (i ^^^ h2 % 2 ^ k)) % 2 ^ k : Nat) : Int) := by
  have hi31 : i < 2147483648 := lt_of_lt_of_le hi (two_pow_le_31 hk)
  have hi32 : i < 4294967296 := by omega
  set P := h2 % 4294967296 with hP
  have hPlt : P < 4294967296 := Nat.mod_lt _ (by norm_num)
  unfold gIdx jsRem
  rw [jsXor_nat _ _ hi32]
  set x := i ^^^ P with hx
  have hx32 : x < 4294967296 := by
    have h1 : i < 2 ^ 32 := by omega
    have h2b : P < 2 ^ 32 := by omega
    have := Nat.xor_lt_two_pow h1 h2b
    omega
  have hxge : 2147483648 ≤ x := by
    have hPbit : P.testBit 31 = true := by
      rw [Nat.testBit_to_div_mod]
      simp only [decide_eq_true_eq]
      omega
    have hibit : i.testBit 31 = false := Nat.testBit_lt_two_pow (by omega)
    have hxbit : x.testBit 31 = true := by
      rw [hx, Nat.testBit_xor, hibit, hPbit]
      rfl
    have := Nat.testBit_implies_ge hxbit
    omega
  rw [sint32_of_ge hxge, intSub_as_negSucc hx32, tmod_negSucc]
  congr 1
  have hstep : 4294967295 - x + 1 = 4294967296 - x := by omega
  rw [hstep, subModPow (by omega) (by omega)]
  congr 2
  rw [hx, xorModTwoPow, Nat.mod_eq_of_lt hi, hP, modPow_collapse (by omega)]

lemma xor_mod_lt {i h2 k : Nat} (hi : i < 2 ^ k) : i ^^^ h2 % 2 ^ k < 2 ^ k :=
  Nat.xor_lt_two_pow hi (Nat.mod_lt _ (Nat.pos_pow_of_pos k (by norm_num)))

/-- Case-A involution: applying the alternate-index computation twice
returns the original index. -/
lemma gIdx_involA {k : Nat} (hk : k ≤ 31) {h2 : Nat}
    (hA : h2 % 4294967296 < 2147483648) {i : Nat} (hi : i < 2 ^ k) :
    gIdx (2 ^ k) h2 (gIdx (2 ^ k) h2 (i : Int)) = (i : Int) := by
  rw [gIdx_caseA hk hA hi, gIdx_caseA hk hA (xor_mod_lt hi)]
  norm_cast
  rw [Nat.xor_assoc, Nat.xor_self, Nat.xor_zero]

/-- Range of `gIdx`: a truncated remainder lies in `(-cap, cap)`. -/
lemma gIdx_range {cap : Nat} (hcap : 0 < cap) (h2 : Nat) (i : Int) :
    -(cap : Int) < gIdx cap h2 i ∧ gIdx cap h2 i < cap := by
  unfold gIdx jsRem
  cases hj : jsXor i (h2 : Int) with
  | ofNat n =>
    have : Int.tmod (Int.ofNat n) ((cap : Nat) : Int) = ((n % cap : Nat) : Int) :=
      tmod_ofNat n cap
    rw [this]
    have := Nat.mod_lt n hcap
    omega
  | negSucc n =>
    have : Int.tmod (Int.negSucc n) ((cap : Nat) : Int) = -(((n + 1) % cap : Nat) : Int) :=
      tmod_negSucc n cap
    rw [this]
    have := Nat.mod_lt (n + 1) hcap
    omega

/-- Pair closure: starting from an in-range index `i1`, one valid
alternate-index step from either element of the pair `{i1, gIdx i1}` lands
back inside the pair (provided the step produced a nonnegative index, the
only case in which the filter code goes on to use it). -/
lemma gIdx_pair_closure {k : Nat} (hk : k ≤ 31) (h2 : Nat) {i1 b : Int}
    (hi0 : 0 ≤ i1) (hi1 : i1 < 2 ^ k)
    (hb : b = i1 ∨ b = gIdx (2 ^ k) h2 i1) (hb0 : 0 ≤ b)
    (hg0 : 0 ≤ gIdx (2 ^ k) h2 b) :
    gIdx (2 ^ k) h2 b = i1 ∨ gIdx (2 ^ k) h2 b = gIdx (2 ^ k) h2 i1 := by
  rcases hb with hb | hb
  · right
    rw [hb]
  · set i1n := i1.toNat with hi1n
    have hcast : (((2:Nat) ^ k : Nat) : Int) = (2:Int) ^ k := by push_cast; ring
    have hi1eq : i1 = (i1n : Int) := by omega
    have hi1lt : i1n < 2 ^ k := by omega
    rcases Nat.lt_or_ge (h2 % 4294967296) 2147483648 with hA | hB
    · left
      rw [hb, hi1eq]
      exact gIdx_involA hk hA hi1lt
    · have hform := gIdx_caseB hk hB hi1lt
      rw [hi1eq, hform] at hb
      have hb0x : (0:Int) ≤ -(((2 ^ k - (i1n ^^^ h2 % 2 ^ k)) % 2 ^ k : Nat) : Int) := by
        rw [← hb]
        exact hb0
      have hz : ((2 ^ k - (i1n ^^^ h2 % 2 ^ k)) % 2 ^ k : Nat) = 0 := by omega
      have hxlt : i1n ^^^ h2 % 2 ^ k < 2 ^ k := xor_mod_lt hi1lt
      have hxz : i1n ^^^ h2 % 2 ^ k = 0 := by
        rcases Nat.eq_zero_or_pos (i1n ^^^ h2 % 2 ^ k) with h | h
        · exact h
        · exfalso
          rw [Nat.mod_eq_of_lt (by omega)] at hz
          omega
      have hbz : b = ((0:Nat) : Int) := by
        rw [hb, hxz]
        simp
      have hknz : (0:Nat) < 2 ^ k := Nat.pos_pow_of_pos k (by norm_num)
      have h0form := gIdx_caseB hk hB hknz
      rw [hbz] at hg0 ⊢
      rw [h0form] at hg0 ⊢
      simp only [Nat.zero_xor] at hg0 ⊢
      have hlxlt : h2 % 2 ^ k < 2 ^ k := Nat.mod_lt _ hknz
      have hlz : h2 % 2 ^ k = 0 := by
        rcases Nat.eq_zero_or_pos (h2 % 2 ^ k) with h | h
        · exact h
        · exfalso
          rw [Nat.mod_eq_of_lt (by omega)] at hg0
          omega
      left
      rw [hlz, Nat.sub_zero, Nat.mod_self]
      have : i1n = 0 := by
        rw [hlz, Nat.xor_zero] at hxz
        exact hxz
      rw [hi1eq, this]
      simp

lemma testBit_size_pred {x : Nat} (hx : 0 < x) : x.testBit (x.size - 1) = true := by
  have h1 : 2 ^ (x.size - 1) ≤ x := by
    rw [← Nat.lt_size]
    have : 0 < x.size := by
      rw [Nat.size_pos]
      exact hx
    omega
  have h2 : x < 2 ^ x.size := by
    rw [← Nat.size_le]
  have h3 : 2 ^ x.size = 2 ^ (x.size - 1) * 2 := by
    have : 0 < x.size := Nat.size_pos.mpr hx
    rw [← Nat.pow_succ]
    congr 1
    omega
  rw [Nat.testBit_to_div_mod]
  have hdiv : x / 2 ^ (x.size - 1) = 1 := by
    have hp : 0 < 2 ^ (x.size - 1) := Nat.pos_pow_of_pos _ (by norm_num)
    have hlow : 1 ≤ x / 2 ^ (x.size - 1) := (Nat.le_div_iff_mul_le hp).mpr (by omega)
    have hhigh : x / 2 ^ (x.size - 1) < 2 := by
      rw [Nat.div_lt_iff_lt_mul hp]
      omega
    omega
  simp [hdiv]

lemma testBit_size_ge {x i : Nat} (h : x.testBit i = true) : i < x.size := by
  have := Nat.testBit_implies_ge h
  rw [Nat.lt_size]
  exact this

/-- One smear stage extends the window of bit positions ORed together. -/
lemma smearStage {x y : Nat} {w s : Nat} (hs : s ≤ w)
    (hy : ∀ j, y.testBit j = true ↔ ∃ d < w, x.testBit (j + d) = true) :
    ∀ j, (y ||| y >>> s).testBit j = true ↔ ∃ d < w + s, x.testBit (j + d) = true := by
  intro j
  rw [Nat.testBit_lor, Nat.testBit_shiftRight, Bool.or_eq_true, hy j, hy (s + j)]
  constructor
  · rintro (⟨d, hd, hb⟩ | ⟨d, hd, hb⟩)
    · exact ⟨d, by omega, hb⟩
    · exact ⟨s + d, by omega, by rw [show j + (s + d) = s + j + d by omega]; exact hb⟩
  · rintro ⟨d, hd, hb⟩
    by_cases hc : d < w
    · exact Or.inl ⟨d, hc, hb⟩
    · refine Or.inr ⟨d - s, by omega, ?_⟩
      rw [show s + j + (d - s) = j + d by omega]
      exact hb


lemma smearStageP {x y : Nat} (w s : Nat) (hs : s ≤ w)
    (hy : ∀ j, y.testBit j = true ↔ ∃ d < w, x.testBit (j + d) = true) :
    ∀ j, (y ||| y >>> s).testBit j = true ↔ ∃ d < w + s, x.testBit (j + d) = true :=
  smearStage hs hy

lemma jsStage_eq {y : Nat} (hy : y < 2147483648) {s : Nat} (hs : s < 32) :
    smearStep (y : Int) s = ((y ||| y >>> s : Nat) : Int) := by
  unfold smearStep jsShrU
  rw [pat_ofNat, pat_ofNat, Nat.mod_eq_of_lt (by omega : y < 4294967296),
    Nat.mod_eq_of_lt (by omega : s < 4294967296), Nat.mod_eq_of_lt hs]
  unfold jsOr
  rw [pat_ofNat, pat_ofNat, Nat.mod_eq_of_lt (by omega : y < 4294967296)]
  have hshr : y >>> s ≤ y := by
    rw [Nat.shiftRight_eq_div_pow]
    exact Nat.div_le_self _ _
  rw [Nat.mod_eq_of_lt (by omega : y >>> s < 4294967296)]
  have hlt : y ||| y >>> s < 2147483648 := by
    have h1 : y < 2 ^ 31 := by omega
    have h2 : y >>> s < 2 ^ 31 := by omega
    have := Nat.or_lt_two_pow h1 h2
    omega
  exact sint32_of_lt hlt

lemma smear_or_lt {y : Nat} (hy : y < 2147483648) (s : Nat) :
    y ||| y >>> s < 2147483648 := by
  have h1 : y < 2 ^ 31 := by omega
  have h2 : y >>> s < 2 ^ 31 := by
    have h3 : y >>> s ≤ y := by
      rw [Nat.shiftRight_eq_div_pow]
      exact Nat.div_le_self _ _
    omega
  have := Nat.or_lt_two_pow h1 h2
  omega

/-- The integer constructor's `_nextPowerOf2` returns a power of two
`2^k` with `k ≤ 31`, for `1 ≤ c ≤ 2^31`. -/
lemma nextPowerOf2_pow {c : Int} (hc : 0 < c) (hcap : c ≤ 2147483648) :
    ∃ k, k ≤ 31 ∧ nextPowerOf2 c = ((2 ^ k : Nat) : Int) := by
  set x := (c - 1).toNat with hx
  have hxlt : x < 2147483648 := by omega
  have hceq : c - 1 = (x : Int) := by omega
  set x1 := x ||| x >>> 1 with hx1
  set x2 := x1 ||| x1 >>> 2 with hx2
  set x3 := x2 ||| x2 >>> 4 with hx3
  set x4 := x3 ||| x3 >>> 8 with hx4
  set x5 := x4 ||| x4 >>> 16 with hx5
  have hx1lt := smear_or_lt hxlt 1
  have hx2lt := smear_or_lt hx1lt 2
  have hx3lt := smear_or_lt hx2lt 4
  have hx4lt := smear_or_lt hx3lt 8
  have hval : nextPowerOf2 c = ((x5 : Nat) : Int) + 1 := by
    unfold nextPowerOf2
    rw [hceq, jsStage_eq hxlt (by norm_num), jsStage_eq hx1lt (by norm_num),
      jsStage_eq hx2lt (by norm_num), jsStage_eq hx3lt (by norm_num),
      jsStage_eq hx4lt (by norm_num)]
  have hW1 : ∀ j, x.testBit j = true ↔ ∃ d, d < 1 ∧ x.testBit (j + d) = true := by
    intro j
    constructor
    · intro h
      exact ⟨0, by omega, by simpa using h⟩
    · rintro ⟨d, hd, hb⟩
      have : d = 0 := by omega
      simpa [this] using hb
  have hW2 := smearStageP 1 1 (by omega) hW1
  have hW3 := smearStageP 2 2 (by omega) hW2
  have hW4 := smearStageP 4 4 (by omega) hW3
  have hW5 := smearStageP 8 8 (by omega) hW4
  have hW6 := smearStageP 16 16 (by omega) hW5
  rcases Nat.eq_zero_or_pos x with hx0 | hx0
  · refine ⟨0, by omega, ?_⟩
    have hx5z : x5 = 0 := by
      apply Nat.eq_of_testBit_eq
      intro i
      rw [Nat.zero_testBit]
      by_contra hne
      have hb : x5.testBit i = true := by
        cases hbv : x5.testBit i
        · exact absurd hbv hne
        · rfl
      obtain ⟨d, _, hd⟩ := (hW6 i).mp hb
      rw [hx0] at hd
      rw [Nat.zero_testBit] at hd
      exact Bool.false_ne_true hd
    rw [hval, hx5z]
    norm_num
  · have hsle : x.size ≤ 31 := by
      rw [Nat.size_le]
      have : (2:Nat) ^ 31 = 2147483648 := by norm_num
      omega
    have hx5eq : x5 = 2 ^ x.size - 1 := by
      apply Nat.eq_of_testBit_eq
      intro j
      rw [Nat.testBit_two_pow_sub_one]
      by_cases hj : j < x.size
      · have hd : x.testBit (j + (x.size - 1 - j)) = true := by
          rw [show j + (x.size - 1 - j) = x.size - 1 by omega]
          exact testBit_size_pred hx0
        rw [(hW6 j).mpr ⟨x.size - 1 - j, by omega, hd⟩]
        simp [hj]
      · have : x5.testBit j = false := by
          cases hbv : x5.testBit j
          · rfl
          · obtain ⟨d, _, hdb⟩ := (hW6 j).mp hbv
            have := testBit_size_ge hdb
            omega
        rw [this]
        simp [hj]
    refine ⟨x.size, hsle, ?_⟩
    have hpow : 0 < 2 ^ x.size := Nat.pos_pow_of_pos _ (by norm_num)
    have hfin : x5 + 1 = 2 ^ x.size := by
      rw [hx5eq]
      omega
    rw [hval]
    rw [show ((x5 : Nat) : Int) + 1 = ((x5 + 1 : Nat) : Int) by push_cast; ring, hfin]

/-! Hex round-trip. -/

lemma hexVal_hexDigit {n : Nat} (h : n < 16) : hexVal (hexDigit n) = some n := by
  unfold hexVal hexDigit
  by_cases h10 : n < 10
  · rw [if_pos h10, if_pos (by omega)]
    simp
  · rw [if_neg h10, if_neg (by omega), if_pos (by omega)]
    simp

lemma fromHex_toHex {b : Bytes} (hb : ∀ x ∈ b, x < 256) : fromHex (toHex b) = b := by
  induction b with
  | nil => rfl
  | cons x rest ih =>
    have hx : x < 256 := hb x (List.mem_cons_self x rest)
    have hcons : toHex (x :: rest) = hexDigit (x / 16) :: hexDigit (x % 16) :: toHex rest := by
      simp [toHex]
    rw [hcons]
    unfold fromHex
    rw [hexVal_hexDigit (by omega), hexVal_hexDigit (by omega : x % 16 < 16)]
    show (16 * (x / 16) + x % 16) :: fromHex (toHex rest) = x :: rest
    have hsplit : 16 * (x / 16) + x % 16 = x := by omega
    rw [hsplit, ih (fun y hy => hb y (List.mem_cons_of_mem x hy))]

/-! ## Projection lemmas: the ghost-tracked operations compute exactly the
plain operations. -/

lemma insertIntoBucketTr_proj (f : IntFilter) (i : Int) (fp : JSVal) :
    insertIntoBucket f i fp = (insertIntoBucketTr f i fp).map (fun x => (x.1.isSome, x.2)) := by
  unfold insertIntoBucket insertIntoBucketTr
  cases bucketsRead f i with
  | none =>
    by_cases h : f.bucketSize = 0 <;> simp [h, Except.map]
  | some b =>
    cases h : scanSlot b (fun v => v == JSVal.null) 0 f.bucketSize <;> simp [h, Except.map]

lemma removeFromBucketTr_proj (f : IntFilter) (i : Int) (fp : JSVal) :
    removeFromBucket f i fp = (removeFromBucketTr f i fp).map (fun x => (x.1.isSome, x.2)) := by
  unfold removeFromBucket removeFromBucketTr
  cases bucketsRead f i with
  | none =>
    by_cases h : f.bucketSize = 0 <;> simp [h, Except.map]
  | some b =>
    cases h : scanSlot b (fun v => v == fp) 0 f.bucketSize <;> simp [h, Except.map]

lemma kickLoopTr_proj (fuel : Nat) :
    ∀ (f : IntFilter) (curIdx : Int) (curFp : JSVal) (s : List Nat) (t : TrackSt),
      (kickLoopTr f fuel curIdx curFp s t).1 = kickLoop f fuel curIdx curFp s := by
  induction fuel with
  | zero => intro f curIdx curFp s t; rfl
  | succ n ih =>
    intro f curIdx curFp s t
    unfold kickLoopTr kickLoop
    simp only []
    cases hbr : bucketsRead { f with kicks := f.kicks + 1 } curIdx with
    | none => simp [hbr]
    | some b =>
      simp only [hbr]
      cases hg : getSecondBucketIndex
          (setBucketAt { f with kicks := f.kicks + 1 } curIdx
            (bucketWrite b (if f.bucketSize = 0 then 0 else (draw s).1 % f.bucketSize) curFp))
          curIdx
          (bucketRead b (if f.bucketSize = 0 then 0 else (draw s).1 % f.bucketSize)) with
      | error e => simp [hg]
      | ok nextIdx =>
        simp only [hg]
        rw [insertIntoBucketTr_proj]
        cases hins : insertIntoBucketTr
            (setBucketAt { f with kicks := f.kicks + 1 } curIdx
              (bucketWrite b (if f.bucketSize = 0 then 0 else (draw s).1 % f.bucketSize) curFp))
            nextIdx
            (bucketRead b (if f.bucketSize = 0 then 0 else (draw s).1 % f.bucketSize)) with
        | error e => simp [hins, Except.map]
        | ok pr =>
          rcases pr with ⟨oslot, f3⟩
          cases oslot with
          | none => simp [hins, Except.map, ih]
          | some slot => simp [hins, Except.map]

lemma insertTr_proj (f : IntFilter) (item : Option (List Nat)) (s : List Nat) (t : TrackSt) :
    (insertTr f item s t).1 = insertInt f item s := by
  unfold insertTr insertInt
  cases item with
  | none => rfl
  | some it =>
    simp only []
    cases hg : getSecondBucketIndex f (jsRem (jsHash it : Int) (f.capacity : Int))
        (.num (genFingerprint f.fingerprintMask it)) with
    | error e => simp [hg]
    | ok i2 =>
      simp only [hg]
      rw [insertIntoBucketTr_proj]
      cases h1 : insertIntoBucketTr f (jsRem (jsHash it : Int) (f.capacity : Int))
          (.num (genFingerprint f.fingerprintMask it)) with
      | error e => simp [h1, Except.map]
      | ok pr =>
        rcases pr with ⟨oslot, f1⟩
        cases oslot with
        | some slot => simp [h1, Except.map]
        | none =>
          simp only [h1, Except.map, Option.isSome_none]
          rw [insertIntoBucketTr_proj]
          cases h2 : insertIntoBucketTr f1 i2
              (.num (genFingerprint f.fingerprintMask it)) with
          | error e => simp [h2, Except.map]
          | ok pr2 =>
            rcases pr2 with ⟨oslot2, f2⟩
            cases oslot2 with
            | some slot => simp [h2, Except.map]
            | none => simp [h2, Except.map, kickLoopTr_proj]

lemma removeTr_proj (f : IntFilter) (item : Option (List Nat)) (t : TrackSt) :
    (removeTr f item t).1 = removeInt f item := by
  unfold removeTr removeInt
  cases item with
  | none => rfl
  | some it =>
    simp only []
    cases hg : getSecondBucketIndex f (jsRem (jsHash it : Int) (f.capacity : Int))
        (.num (genFingerprint f.fingerprintMask it)) with
    | error e => simp [hg]
    | ok i2 =>
      simp only [hg]
      rw [removeFromBucketTr_proj]
      cases h1 : removeFromBucketTr f (jsRem (jsHash it : Int) (f.capacity : Int))
          (.num (genFingerprint f.fingerprintMask it)) with
      | error e => simp [h1, Except.map]
      | ok pr =>
        rcases pr with ⟨oslot, f1⟩
        cases oslot with
        | some slot => simp [h1, Except.map]
        | none =>
          simp only [h1, Except.map, Option.isSome_none]
          rw [removeFromBucketTr_proj]
          cases h2 : removeFromBucketTr f1 i2
              (.num (genFingerprint f.fingerprintMask it)) with
          | error e => simp [h2, Except.map]
          | ok pr2 =>
            rcases pr2 with ⟨oslot2, f2⟩
            cases oslot2 with
            | some slot => simp [h2, Except.map]
            | none => simp [h2, Except.map]

/-! ## List-level helper lemmas -/

lemma scanSlot_some {b : List JSVal} {p : JSVal → Bool} :
    ∀ {start count i : Nat}, scanSlot b p start count = some i →
      start ≤ i ∧ i < start + count ∧ p (bucketRead b i) = true := by
  intro start count
  induction count generalizing start with
  | zero => intro i h; simp [scanSlot] at h
  | succ n ih =>
    intro i h
    unfold scanSlot at h
    by_cases hp : p (bucketRead b start)
    · rw [if_pos hp] at h
      cases h
      exact ⟨le_rfl, by omega, hp⟩
    · rw [if_neg hp] at h
      obtain ⟨h1, h2, h3⟩ := ih h
      exact ⟨by omega, by omega, h3⟩

lemma scanSlot_none {b : List JSVal} {p : JSVal → Bool} :
    ∀ {start count : Nat}, scanSlot b p start count = none →
      ∀ j, start ≤ j → j < start + count → p (bucketRead b j) = false := by
  intro start count
  induction count generalizing start with
  | zero => intro _ j h1 h2; omega
  | succ n ih =>
    intro h j h1 h2
    unfold scanSlot at h
    by_cases hp : p (bucketRead b start)
    · rw [if_pos hp] at h; cases h
    · rw [if_neg hp] at h
      rcases Nat.eq_or_lt_of_le h1 with he | hl
      · rw [← he]
        exact Bool.eq_false_iff.mpr hp
      · exact ih h j hl (by omega)

lemma scanSlot_found {b : List JSVal} {p : JSVal → Bool} {start count j : Nat}
    (h1 : start ≤ j) (h2 : j < start + count) (hp : p (bucketRead b j) = true) :
    scanSlot b p start count ≠ none := by
  intro hnone
  have := scanSlot_none hnone j h1 h2
  rw [hp] at this
  cases this

lemma cntOcc_eq_sum (b : List JSVal) : cntOcc b = (b.map occOf).sum := by
  induction b with
  | nil => rfl
  | cons v rest ih =>
    unfold cntOcc at ih ⊢
    rw [List.countP_cons, ih]
    simp [occOf]
    by_cases h : v = JSVal.null <;> simp [h] <;> ring

lemma cntOcc_set {b : List JSVal} {i : Nat} (hi : i < b.length) (v : JSVal) :
    cntOcc (b.set i v) + occOf b[i] = cntOcc b + occOf v := by
  rw [cntOcc_eq_sum, cntOcc_eq_sum]
  induction b generalizing i with
  | nil => simp at hi
  | cons x rest ih =>
    cases i with
    | zero => simp [List.set]; ring
    | succ n =>
      simp only [List.set, List.map_cons, List.sum_cons, List.getElem_cons_succ]
      have hn : n < rest.length := by simpa using hi
      have := ih hn
      omega

lemma countOccupied_eq_sum (bkts : List (List JSVal)) :
    countOccupied bkts = (bkts.map cntOcc).sum := by
  unfold countOccupied cntOcc
  rfl

lemma countOccupied_set {bkts : List (List JSVal)} {i : Nat} (hi : i < bkts.length)
    (b' : List JSVal) :
    countOccupied (bkts.set i b') + cntOcc bkts[i] = countOccupied bkts + cntOcc b' := by
  rw [countOccupied_eq_sum, countOccupied_eq_sum]
  induction bkts generalizing i with
  | nil => simp at hi
  | cons x rest ih =>
    cases i with
    | zero => simp [List.set]; ring
    | succ n =>
      simp only [List.set, List.map_cons, List.sum_cons, List.getElem_cons_succ]
      have hn : n < rest.length := by simpa using hi
      have := ih hn
      omega

lemma bucketWrite_length {b : List JSVal} {i : Nat} (hi : i < b.length) (v : JSVal) :
    (bucketWrite b i v).length = b.length := by
  unfold bucketWrite
  rw [if_pos hi, List.length_set]

lemma bucketRead_write_self {b : List JSVal} {i : Nat} (hi : i < b.length) (v : JSVal) :
    bucketRead (bucketWrite b i v) i = v := by
  unfold bucketWrite bucketRead
  rw [if_pos hi]
  rw [List.getD_eq_getElem?_getD, List.getElem?_set_self (by omega), Option.getD_some]

lemma bucketRead_write_ne {b : List JSVal} {i j : Nat} (hi : i < b.length) (v : JSVal)
    (hne : i ≠ j) : bucketRead (bucketWrite b i v) j = bucketRead b j := by
  unfold bucketWrite bucketRead
  rw [if_pos hi]
  rw [List.getD_eq_getElem?_getD, List.getD_eq_getElem?_getD, List.getElem?_set_ne hne]

/-! ## Characterisation of the bucket operations -/

lemma bucketsRead_some {f : IntFilter} {ci : Int} {b : List JSVal}
    (h : bucketsRead f ci = some b) :
    0 ≤ ci ∧ ci.toNat < f.buckets.length ∧ f.buckets[ci.toNat]? = some b := by
  unfold bucketsRead at h
  by_cases hneg : ci < 0
  · rw [if_pos hneg] at h
    cases h
  · rw [if_neg hneg] at h
    refine ⟨by omega, ?_, h⟩
    obtain ⟨hlt, _⟩ := List.getElem?_eq_some_iff.mp h
    exact hlt

/-- Successful placement: `insertIntoBucketTr` returned a slot. -/
lemma insertIntoBucketTr_some {f : IntFilter} {idx : Int} {fp : JSVal} {slot : Nat}
    {f1 : IntFilter} (h : insertIntoBucketTr f idx fp = .ok (some slot, f1)) :
    ∃ b, bucketsRead f idx = some b ∧
      scanSlot b (fun v => v == JSVal.null) 0 f.bucketSize = some slot ∧
      f1 = setBucketAt f idx (bucketWrite b slot fp) := by
  cases hbr : bucketsRead f idx with
  | none =>
    simp only [insertIntoBucketTr, hbr] at h
    by_cases hbs : f.bucketSize = 0 <;> simp [hbs] at h
  | some b =>
    simp only [insertIntoBucketTr, hbr] at h
    cases hscan : scanSlot b (fun v => v == JSVal.null) 0 f.bucketSize with
    | none => simp only [hscan] at h; cases h
    | some i =>
      simp only [hscan] at h
      cases h
      exact ⟨b, rfl, hscan, rfl⟩

/-- Failed placement: state unchanged; with a positive `bucketSize` the
target bucket exists and its scan window holds no `null`. -/
lemma insertIntoBucketTr_none {f : IntFilter} {idx : Int} {fp : JSVal}
    {f1 : IntFilter} (h : insertIntoBucketTr f idx fp = .ok (none, f1)) :
    f1 = f ∧ (0 < f.bucketSize → ∃ b, bucketsRead f idx = some b ∧
      scanSlot b (fun v => v == JSVal.null) 0 f.bucketSize = none) := by
  cases hbr : bucketsRead f idx with
  | none =>
    simp only [insertIntoBucketTr, hbr] at h
    by_cases hbs : f.bucketSize = 0
    · rw [if_pos hbs] at h
      cases h
      exact ⟨rfl, by omega⟩
    · rw [if_neg hbs] at h
      cases h
  | some b =>
    simp only [insertIntoBucketTr, hbr] at h
    cases hscan : scanSlot b (fun v => v == JSVal.null) 0 f.bucketSize with
    | none =>
      simp only [hscan] at h
      cases h
      exact ⟨rfl, fun _ => ⟨b, rfl, hscan⟩⟩
    | some i => simp only [hscan] at h; cases h

lemma removeFromBucketTr_some {f : IntFilter} {idx : Int} {fp : JSVal} {slot : Nat}
    {f1 : IntFilter} (h : removeFromBucketTr f idx fp = .ok (some slot, f1)) :
    ∃ b, bucketsRead f idx = some b ∧
      scanSlot b (fun v => v == fp) 0 f.bucketSize = some slot ∧
      f1 = setBucketAt f idx (bucketWrite b slot JSVal.null) := by
  cases hbr : bucketsRead f idx with
  | none =>
    simp only [removeFromBucketTr, hbr] at h
    by_cases hbs : f.bucketSize = 0 <;> simp [hbs] at h
  | some b =>
    simp only [removeFromBucketTr, hbr] at h
    cases hscan : scanSlot b (fun v => v == fp) 0 f.bucketSize with
    | none => simp only [hscan] at h; cases h
    | some i =>
      simp only [hscan] at h
      cases h
      exact ⟨b, rfl, hscan, rfl⟩

lemma removeFromBucketTr_none {f : IntFilter} {idx : Int} {fp : JSVal}
    {f1 : IntFilter} (h : removeFromBucketTr f idx fp = .ok (none, f1)) : f1 = f := by
  cases hbr : bucketsRead f idx with
  | none =>
    simp only [removeFromBucketTr, hbr] at h
    by_cases hbs : f.bucketSize = 0
    · rw [if_pos hbs] at h
      cases h
      rfl
    · rw [if_neg hbs] at h
      cases h
  | some b =>
    simp only [removeFromBucketTr, hbr] at h
    cases hscan : scanSlot b (fun v => v == fp) 0 f.bucketSize with
    | none =>
      simp only [hscan] at h
      cases h
      rfl
    | some i => simp only [hscan] at h; cases h

/-! ## Small bridging lemmas -/

lemma bucketRead_eq_getElem {b : List JSVal} {i : Nat} (h : i < b.length) :
    bucketRead b i = b[i] := by
  unfold bucketRead
  rw [List.getD_eq_getElem?_getD, List.getElem?_eq_getElem h, Option.getD_some]

lemma getSecondBucketIndex_ok {f : IntFilter} {ci j : Int} {old : JSVal}
    (h : getSecondBucketIndex f ci old = .ok j) :
    ∃ o : Int, old = .num o ∧ j = gIdx f.capacity (jsHash2 (intToStringCodes o)) ci := by
  cases old with
  | num o =>
    refine ⟨o, rfl, ?_⟩
    simp only [getSecondBucketIndex, hash2OfVal] at h
    cases h
    rfl
  | null => simp [getSecondBucketIndex, hash2OfVal] at h
  | undef => simp [getSecondBucketIndex, hash2OfVal] at h

lemma itemIdx_range {f : IntFilter} (hcap : 0 < f.capacity) (X : List Nat) :
    0 ≤ itemIdx f X ∧ itemIdx f X < (f.capacity : Int) := by
  unfold itemIdx jsRem
  rw [tmod_ofNat]
  have := Nat.mod_lt (jsHash X) hcap
  omega

lemma scanSlot_zero (b : List JSVal) (p : JSVal → Bool) (start : Nat) :
    scanSlot b p start 0 = none := rfl

/-! ## Combined invariant preservation through the kick loop -/

lemma setBucketAt_fields (f : IntFilter) (i : Int) (b : List JSVal) :
    (setBucketAt f i b).capacity = f.capacity ∧
    (setBucketAt f i b).bucketSize = f.bucketSize ∧
    (setBucketAt f i b).fingerprintMask = f.fingerprintMask ∧
    (setBucketAt f i b).size = f.size ∧
    (setBucketAt f i b).buckets = f.buckets.set i.toNat b := ⟨rfl, rfl, rfl, rfl, rfl⟩

lemma trackInv_transport {X : List Nat} {f g : IntFilter} {bi pi : Nat}
    (h : TrackInv X f (.res bi pi))
    (hcap : g.capacity = f.capacity) (hbs : g.bucketSize = f.bucketSize)
    (hmask : g.fingerprintMask = f.fingerprintMask)
    (hslot : ∃ b, g.buckets[bi]? = some b ∧
      bucketRead b pi = .num (genFingerprint f.fingerprintMask X)) :
    TrackInv X g (.res bi pi) := by
  obtain ⟨h1, h2, h3, _, h5⟩ := h
  refine ⟨by omega, by omega, by omega, ?_, ?_⟩
  · rw [hmask]
    exact hslot
  · unfold itemIdx h2OfItem at h5 ⊢
    rw [hcap, hmask]
    exact h5

/-- One unfolding step of the kick loop when the current bucket exists,
with the moving parts named by equations. -/
lemma kickLoopTr_succ_some (f : IntFilter) (n : Nat) (ci : Int) (cf : JSVal)
    (s : List Nat) (t : TrackSt) (b : List JSVal) (rp : Nat) (old : JSVal)
    (f2 : IntFilter) (t1 : TrackSt)
    (hbr : bucketsRead { f with kicks := f.kicks + 1 } ci = some b)
    (hrp : rp = if f.bucketSize = 0 then 0 else (draw s).1 % f.bucketSize)
    (hold : old = bucketRead b rp)
    (hf2 : f2 = setBucketAt { f with kicks := f.kicks + 1 } ci (bucketWrite b rp cf))
    (ht1 : t1 = (match t with
      | TrackSt.fly => TrackSt.res ci.toNat rp
      | TrackSt.res bi pi => if bi = ci.toNat ∧ pi = rp then TrackSt.fly else TrackSt.res bi pi
      | TrackSt.gone => TrackSt.gone)) :
    kickLoopTr f (n + 1) ci cf s t =
      match getSecondBucketIndex f2 ci old with
      | .error e => ((.error e, f2, (draw s).2), dropFly t1)
      | .ok nextIdx =>
        match insertIntoBucketTr f2 nextIdx old with
        | .error e => ((.error e, f2, (draw s).2), dropFly t1)
        | .ok (some slot, f3) =>
          ((.ok true, { f3 with size := f3.size + 1, insertions := f3.insertions + 1 },
            (draw s).2), if t1 = TrackSt.fly then TrackSt.res nextIdx.toNat slot else t1)
        | .ok (none, f3) => kickLoopTr f3 n nextIdx old (draw s).2 t1 := by
  subst hrp hold hf2 ht1
  simp only [kickLoopTr, hbr]

lemma kickLoopTr_main (X : List Nat) (fuel : Nat) :
    ∀ (f : IntFilter) (ci : Int) (cf : JSVal) (s : List Nat) (t : TrackSt),
    WFInt f →
    (∃ v : Int, cf = JSVal.num v) →
    (0 < f.bucketSize → ∀ b, bucketsRead f ci = some b →
      scanSlot b (fun v => v == JSVal.null) 0 f.bucketSize = none) →
    (t = .fly → 0 < f.bucketSize →
      cf = JSVal.num (genFingerprint f.fingerprintMask X) ∧
      (ci = itemIdx f X ∨ ci = gIdx f.capacity (h2OfItem f X) (itemIdx f X))) →
    (∀ bi pi, t = .res bi pi → 0 < f.bucketSize → TrackInv X f (.res bi pi)) →
    WFInt (kickLoopTr f fuel ci cf s t).1.2.1 ∧
    (kickLoopTr f fuel ci cf s t).1.2.1.capacity = f.capacity ∧
    (kickLoopTr f fuel ci cf s t).1.2.1.bucketSize = f.bucketSize ∧
    (kickLoopTr f fuel ci cf s t).1.2.1.fingerprintMask = f.fingerprintMask ∧
    ((kickLoopTr f fuel ci cf s t).1.1 = .ok true → 0 < f.bucketSize) ∧
    (0 < f.bucketSize → TrackInv X (kickLoopTr f fuel ci cf s t).1.2.1
      (kickLoopTr f fuel ci cf s t).2) := by
  induction fuel with
  | zero =>
    intro f ci cf s t hWF hcf hfull hfly hres
    refine ⟨hWF, rfl, rfl, rfl, fun h => by simp [kickLoopTr] at h, ?_⟩
    intro hbs
    show TrackInv X f (dropFly t)
    cases t with
    | res bi pi => exact hres bi pi rfl hbs
    | fly => trivial
    | gone => trivial
  | succ n ih =>
    intro f ci cf s t hWF hcf hfull hfly hres
    cases hbr : bucketsRead { f with kicks := f.kicks + 1 } ci with
    | none =>
      have hstep : kickLoopTr f (n + 1) ci cf s t =
          ((.error .typeError, { f with kicks := f.kicks + 1 }, (draw s).2), dropFly t) := by
        simp only [kickLoopTr, hbr]
      rw [hstep]
      refine ⟨hWF, rfl, rfl, rfl, fun h => by simp at h, ?_⟩
      intro hbs
      show TrackInv X { f with kicks := f.kicks + 1 } (dropFly t)
      cases t with
      | res bi pi => exact hres bi pi rfl hbs
      | fly => trivial
      | gone => trivial
    | some b =>
      have hstep := kickLoopTr_succ_some f n ci cf s t b _ _ _ _ hbr rfl rfl rfl rfl
      rw [hstep]
      obtain ⟨hci0, hcilt, hget⟩ := bucketsRead_some hbr
      simp only [List.length] at hcilt
      obtain ⟨kk, hk31, hkcap⟩ := hWF.1
      have hblen2 := hWF.2.1
      -- name the moving parts of the swap
      set rp := (if f.bucketSize = 0 then 0 else (draw s).1 % f.bucketSize) with hrp
      set old := bucketRead b rp with hold
      set f2 := setBucketAt { f with kicks := f.kicks + 1 } ci (bucketWrite b rp cf) with hf2
      have hbrf : bucketsRead f ci = some b := hbr
      have hgetf : f.buckets[ci.toNat]? = some b := hget
      have hmemb : b ∈ f.buckets := by
        obtain ⟨hlt, hb⟩ := List.getElem?_eq_some_iff.mp hgetf
        rw [← hb]
        exact List.getElem_mem hlt
      obtain ⟨v0, hv0⟩ := hcf
      have hcapf : 0 < f.capacity := by
        rw [hkcap]
        exact Nat.pos_pow_of_pos kk (by norm_num)
      have hcilt2 : ci.toNat < f.capacity := by omega
      have hbuck2 : f2.buckets = f.buckets.set ci.toNat (bucketWrite b rp cf) := rfl
      have hlen2 : f2.buckets.length = f.capacity := by
        rw [hbuck2, List.length_set]
        exact hblen2
      have hblenb : 0 < f.bucketSize → b.length = f.bucketSize := fun hbs =>
        (hWF.2.2.1 hbs).1 b hmemb
      have hrplt : 0 < f.bucketSize → rp < f.bucketSize := by
        intro hbs
        rw [hrp, if_neg (by omega)]
        exact Nat.mod_lt _ hbs
      have hwin : 0 < f.bucketSize →
          scanSlot b (fun v => v == JSVal.null) 0 f.bucketSize = none :=
        fun hbs => hfull hbs b hbrf
      have holdnn : 0 < f.bucketSize → old ≠ JSVal.null := by
        intro hbs hnull
        have := scanSlot_none (hwin hbs) rp (by omega) (by have := hrplt hbs; omega)
        rw [hold] at hnull
        rw [hnull] at this
        simp at this
      have hbi : f.buckets[ci.toNat] = b := (List.getElem?_eq_some_iff.mp hgetf).2
      have hcount2 : 0 < f.bucketSize → countOccupied f2.buckets = countOccupied f.buckets := by
        intro hbs
        have hrpb : rp < b.length := by
          rw [hblenb hbs]
          exact hrplt hbs
        have h1 : countOccupied (f.buckets.set ci.toNat (bucketWrite b rp cf)) +
            cntOcc (f.buckets[ci.toNat]) = countOccupied f.buckets + cntOcc (bucketWrite b rp cf) :=
          countOccupied_set (by omega) _
        have h2 : cntOcc (bucketWrite b rp cf) + occOf (b[rp]) = cntOcc b + occOf cf := by
          have hw : bucketWrite b rp cf = b.set rp cf := by
            unfold bucketWrite
            rw [if_pos hrpb]
          rw [hw]
          exact cntOcc_set hrpb cf
        have hocc_old : occOf (b[rp]) = 1 := by
          have hread : bucketRead b rp = b[rp] := bucketRead_eq_getElem hrpb
          have hno := holdnn hbs
          rw [hold, hread] at hno
          unfold occOf
          rw [if_neg hno]
        have hocc_cf : occOf cf = 1 := by
          rw [hv0]
          rfl
        rw [hbi] at h1
        rw [hbuck2]
        omega
      have hWF2 : WFInt f2 := by
        refine ⟨⟨kk, hk31, hkcap⟩, hlen2, ?_, ?_⟩
        · intro hbs
          constructor
          · intro b2 hb2
            rw [hbuck2] at hb2
            rcases List.mem_or_eq_of_mem_set hb2 with hmem | heq
            · exact (hWF.2.2.1 hbs).1 b2 hmem
            · rw [heq, bucketWrite_length (by rw [hblenb hbs]; exact hrplt hbs) cf]
              exact hblenb hbs
          · have hsz : f2.size = f.size := rfl
            rw [hsz, hcount2 hbs]
            exact (hWF.2.2.1 hbs).2
        · intro hbs
          exact hWF.2.2.2 hbs
      -- track facts about the post-swap state, per shape of t
      have trkFly : 0 < f.bucketSize → t = TrackSt.fly →
          TrackInv X f2 (TrackSt.res ci.toNat rp) := by
        intro hbs htf
        refine ⟨hbs, hcilt2, hrplt hbs, ?_, ?_⟩
        · refine ⟨bucketWrite b rp cf, ?_, ?_⟩
          · rw [hbuck2]
            exact List.getElem?_set_self (by omega)
          · rw [bucketRead_write_self (by rw [hblenb hbs]; exact hrplt hbs) cf]
            exact (hfly htf hbs).1
        · have hcast : ((ci.toNat : Nat) : Int) = ci := by omega
          rw [hcast]
          exact (hfly htf hbs).2
      have trkHit : ∀ bj pj, t = TrackSt.res bj pj → 0 < f.bucketSize →
          bj = ci.toNat → pj = rp →
          old = JSVal.num (genFingerprint f.fingerprintMask X) ∧
          (ci = itemIdx f X ∨ ci = gIdx f.capacity (h2OfItem f X) (itemIdx f X)) := by
        intro bj pj htres hbs hbj hpj
        obtain ⟨_, _, _, ⟨b0, hb0, hb0read⟩, hpair⟩ := hres bj pj htres hbs
        have hb0b : b0 = b := by
          rw [hbj, hgetf] at hb0
          cases hb0
          rfl
        constructor
        · rw [hold, ← hpj, ← hb0b]
          exact hb0read
        · have hcast : ((bj : Nat) : Int) = ci := by omega
          rw [← hcast]
          exact hpair
      have trkMiss : ∀ bj pj, t = TrackSt.res bj pj → 0 < f.bucketSize →
          ¬(bj = ci.toNat ∧ pj = rp) → TrackInv X f2 (TrackSt.res bj pj) := by
        intro bj pj htres hbs hhit
        obtain ⟨_, hbj, hpj, ⟨b0, hb0, hb0read⟩, hpair⟩ := hres bj pj htres hbs
        refine trackInv_transport (hres bj pj htres hbs) rfl rfl rfl ?_
        by_cases hsame : bj = ci.toNat
        · have hb0b : b0 = b := by
            rw [hsame, hgetf] at hb0
            cases hb0
            rfl
          refine ⟨bucketWrite b rp cf, ?_, ?_⟩
          · rw [hbuck2, hsame]
            exact List.getElem?_set_self (by omega)
          · have hpne : rp ≠ pj := by
              intro he
              exact hhit ⟨hsame, he.symm⟩
            rw [bucketRead_write_ne (by rw [hblenb hbs]; exact hrplt hbs) cf hpne, ← hb0b]
            exact hb0read
        · refine ⟨b0, ?_, hb0read⟩
          rw [hbuck2, List.getElem?_set_ne (by omega)]
          exact hb0
      -- the main case tree
      cases hg : getSecondBucketIndex f2 ci old with
      | error e =>
        refine ⟨hWF2, rfl, rfl, rfl, fun h => by simp at h, ?_⟩
        intro hbs
        cases t with
        | fly => exact trkFly hbs rfl
        | gone => trivial
        | res bj pj =>
          by_cases hhit : bj = ci.toNat ∧ pj = rp
          · simp only [if_pos hhit]
            trivial
          · simp only [if_neg hhit]
            exact trkMiss bj pj rfl hbs hhit
      | ok nextIdx =>
        simp only []
        obtain ⟨o, holdnum, hnexteq⟩ := getSecondBucketIndex_ok hg
        -- facts about a successful placement of `old` into bucket `nextIdx`
        have hsucc : ∀ slot f3, insertIntoBucketTr f2 nextIdx old = .ok (some slot, f3) →
            0 < f.bucketSize →
            WFInt { f3 with size := f3.size + 1, insertions := f3.insertions + 1 } ∧
            f3.capacity = f.capacity ∧ f3.bucketSize = f.bucketSize ∧
            f3.fingerprintMask = f.fingerprintMask ∧
            (∀ bj pj, TrackInv X f2 (TrackSt.res bj pj) →
              TrackInv X { f3 with size := f3.size + 1, insertions := f3.insertions + 1 }
                (TrackSt.res bj pj)) ∧
            (old = JSVal.num (genFingerprint f.fingerprintMask X) →
              (ci = itemIdx f X ∨ ci = gIdx f.capacity (h2OfItem f X) (itemIdx f X)) →
              TrackInv X { f3 with size := f3.size + 1, insertions := f3.insertions + 1 }
                (TrackSt.res nextIdx.toNat slot)) := by
          intro slot f3 hins hbs
          obtain ⟨b2, hbr2, hscan2, hf3⟩ := insertIntoBucketTr_some hins
          subst hf3
          obtain ⟨hni0, hniltB, hget2⟩ := bucketsRead_some hbr2
          obtain ⟨_, hslotcnt, hslotp⟩ := scanSlot_some hscan2
          have hslotnull : bucketRead b2 slot = JSVal.null := by
            simpa using hslotp
          have hbseq : f2.bucketSize = f.bucketSize := rfl
          have hslotbs : slot < f.bucketSize := by omega
          have hslotb2 : slot < b2.length := by
            by_contra hge
            have : bucketRead b2 slot = JSVal.undef := by
              unfold bucketRead
              rw [List.getD_eq_getElem?_getD, List.getElem?_eq_none (by omega)]
              rfl
            rw [this] at hslotnull
            cases hslotnull
          have hb2mem : b2 ∈ f2.buckets := by
            obtain ⟨hlt, hb⟩ := List.getElem?_eq_some_iff.mp hget2
            rw [← hb]
            exact List.getElem_mem hlt
          have hb2len : b2.length = f.bucketSize := (hWF2.2.2.1 hbs).1 b2 hb2mem
          have hnilt : nextIdx.toNat < f.capacity := by
            have h := hniltB
            omega
          have hcountS : countOccupied (f2.buckets.set nextIdx.toNat (bucketWrite b2 slot old)) =
              countOccupied f2.buckets + 1 := by
            have h1 : countOccupied (f2.buckets.set nextIdx.toNat (bucketWrite b2 slot old)) +
                cntOcc (f2.buckets[nextIdx.toNat]) =
                countOccupied f2.buckets + cntOcc (bucketWrite b2 slot old) :=
              countOccupied_set (by omega) _
            have hb2i : f2.buckets[nextIdx.toNat] = b2 := (List.getElem?_eq_some_iff.mp hget2).2
            have hw : bucketWrite b2 slot old = b2.set slot old := by
              unfold bucketWrite
              rw [if_pos hslotb2]
            have h2 : cntOcc (bucketWrite b2 slot old) + occOf (b2[slot]) =
                cntOcc b2 + occOf old := by
              rw [hw]
              exact cntOcc_set hslotb2 old
            have hocc_slot : occOf (b2[slot]) = 0 := by
              have hread : bucketRead b2 slot = b2[slot] := bucketRead_eq_getElem hslotb2
              rw [hread] at hslotnull
              unfold occOf
              rw [if_pos hslotnull]
            have hocc_old2 : occOf old = 1 := by
              have := holdnn hbs
              unfold occOf
              rw [if_neg this]
            rw [hb2i] at h1
            omega
          refine ⟨?_, rfl, rfl, rfl, ?_, ?_⟩
          · refine ⟨⟨kk, hk31, hkcap⟩, ?_, ?_, ?_⟩
            · show (f2.buckets.set nextIdx.toNat (bucketWrite b2 slot old)).length = f.capacity
              rw [List.length_set]
              exact hlen2
            · intro _
              constructor
              · intro b4 hb4
                have hb4b : b4 ∈ f2.buckets.set nextIdx.toNat (bucketWrite b2 slot old) := hb4
                show b4.length = f.bucketSize
                rcases List.mem_or_eq_of_mem_set hb4b with hmem | heq
                · exact (hWF2.2.2.1 hbs).1 b4 hmem
                · rw [heq, bucketWrite_length hslotb2 old]
                  exact hb2len
              · show f2.size + 1 =
                  (countOccupied (f2.buckets.set nextIdx.toNat (bucketWrite b2 slot old)) : Int)
                rw [hcountS]
                have := (hWF2.2.2.1 hbs).2
                omega
            · intro hbs0
              exact absurd (show f.bucketSize = 0 from hbs0) (by omega)
          · intro bj pj hinv
            refine trackInv_transport hinv rfl rfl rfl ?_
            obtain ⟨_, hbjc, hpjc, ⟨b0, hb0, hb0read⟩, hpair⟩ := hinv
            show ∃ bb, (f2.buckets.set nextIdx.toNat (bucketWrite b2 slot old))[bj]? = some bb ∧
              bucketRead bb pj = JSVal.num (genFingerprint f2.fingerprintMask X)
            by_cases hsame : bj = nextIdx.toNat
            · have hb0b2 : b0 = b2 := by
                rw [hsame, hget2] at hb0
                cases hb0
                rfl
              have hpne : slot ≠ pj := by
                intro he
                rw [hb0b2, ← he] at hb0read
                rw [hb0read] at hslotnull
                cases hslotnull
              refine ⟨bucketWrite b2 slot old, ?_, ?_⟩
              · rw [hsame]
                exact List.getElem?_set_self (by omega)
              · rw [bucketRead_write_ne hslotb2 old hpne, ← hb0b2]
                exact hb0read
            · refine ⟨b0, ?_, hb0read⟩
              rw [List.getElem?_set_ne (by omega)]
              exact hb0
          · intro holdX hcipair
            have hoX : o = genFingerprint f.fingerprintMask X := by
              rw [holdX] at holdnum
              cases holdnum
              rfl
            have hnext2 : nextIdx = gIdx f.capacity (h2OfItem f X) ci := by
              rw [hnexteq, hoX]
              rfl
            obtain ⟨hi0, hilt⟩ := itemIdx_range hcapf X
            have hpairs : nextIdx = itemIdx f X ∨
                nextIdx = gIdx f.capacity (h2OfItem f X) (itemIdx f X) := by
              have hclosure := gIdx_pair_closure hk31 (h2OfItem f X)
                hi0 (by rw [hkcap] at hilt; exact_mod_cast hilt)
                (by rw [← hkcap]; exact hcipair) (by omega)
                (by rw [← hkcap, ← hnext2]; omega)
              rw [← hkcap] at hclosure
              rw [hnext2]
              exact hclosure
            refine ⟨hbs, hnilt, hslotbs, ?_, ?_⟩
            · refine ⟨bucketWrite b2 slot old, ?_, ?_⟩
              · show (f2.buckets.set nextIdx.toNat (bucketWrite b2 slot old))[nextIdx.toNat]? = _
                exact List.getElem?_set_self (by omega)
              · rw [bucketRead_write_self hslotb2 old]
                exact holdX
            · have hcast : ((nextIdx.toNat : Nat) : Int) = nextIdx := by omega
              show ((nextIdx.toNat : Nat) : Int) = itemIdx f X ∨
                ((nextIdx.toNat : Nat) : Int) = gIdx f.capacity (h2OfItem f X) (itemIdx f X)
              rw [hcast]
              exact hpairs
        cases hins : insertIntoBucketTr f2 nextIdx old with
        | error e =>
          simp only []
          refine ⟨hWF2, rfl, rfl, rfl, fun h => by simp at h, ?_⟩
          intro hbs
          cases t with
          | fly => exact trkFly hbs rfl
          | gone => trivial
          | res bj pj =>
            by_cases hhit : bj = ci.toNat ∧ pj = rp
            · simp only [if_pos hhit]
              trivial
            · simp only [if_neg hhit]
              exact trkMiss bj pj rfl hbs hhit
        | ok pr =>
          rcases pr with ⟨oslot, f3⟩
          cases oslot with
          | some slot =>
            simp only []
            by_cases hbs : 0 < f.bucketSize
            · obtain ⟨hWF3, hc3, hb3, hm3, hslotX, hplace⟩ := hsucc slot f3 hins hbs
              refine ⟨hWF3, hc3, hb3, hm3, fun _ => hbs, ?_⟩
              intro _
              cases t with
              | fly => exact hslotX ci.toNat rp (trkFly hbs rfl)
              | gone => trivial
              | res bj pj =>
                by_cases hhit : bj = ci.toNat ∧ pj = rp
                · simp only [if_pos hhit]
                  obtain ⟨holdX, hcipair⟩ := trkHit bj pj rfl hbs hhit.1 hhit.2
                  exact hplace holdX hcipair
                · simp only [if_neg hhit]
                  exact hslotX bj pj (trkMiss bj pj rfl hbs hhit)
            · exfalso
              obtain ⟨b2, hbr2, hscan2, hf3⟩ := insertIntoBucketTr_some hins
              have hbs0 : f2.bucketSize = 0 := by
                show f.bucketSize = 0
                omega
              rw [hbs0, scanSlot_zero] at hscan2
              cases hscan2
          | none =>
            simp only []
            obtain ⟨hf3eq, hfull3⟩ := insertIntoBucketTr_none hins
            subst hf3eq
            have hihfull : 0 < f2.bucketSize → ∀ b4, bucketsRead f2 nextIdx = some b4 →
                scanSlot b4 (fun v => v == JSVal.null) 0 f2.bucketSize = none := by
              intro hbs b4 hb4
              obtain ⟨b5, hb5, hb5scan⟩ := hfull3 hbs
              rw [hb5] at hb4
              cases hb4
              exact hb5scan
            have hnextpair : 0 < f.bucketSize →
                old = JSVal.num (genFingerprint f.fingerprintMask X) →
                (ci = itemIdx f X ∨ ci = gIdx f.capacity (h2OfItem f X) (itemIdx f X)) →
                (nextIdx = itemIdx f X ∨
                  nextIdx = gIdx f.capacity (h2OfItem f X) (itemIdx f X)) ∨ nextIdx < 0 := by
              intro hbs holdX hcipair
              by_cases hneg : nextIdx < 0
              · exact Or.inr hneg
              · left
                have hoX : o = genFingerprint f.fingerprintMask X := by
                  rw [holdX] at holdnum
                  cases holdnum
                  rfl
                have hnext2 : nextIdx = gIdx f.capacity (h2OfItem f X) ci := by
                  rw [hnexteq, hoX]
                  rfl
                obtain ⟨hi0, hilt⟩ := itemIdx_range hcapf X
                have hclosure := gIdx_pair_closure hk31 (h2OfItem f X)
                  hi0 (by rw [hkcap] at hilt; exact_mod_cast hilt)
                  (by rw [← hkcap]; exact hcipair) (by omega)
                  (by rw [← hkcap, ← hnext2]; omega)
                rw [← hkcap] at hclosure
                rw [hnext2]
                exact hclosure
            have hnextOk : ∀ b4, bucketsRead f2 nextIdx = some b4 → 0 ≤ nextIdx := by
              intro b4 hb4
              exact (bucketsRead_some hb4).1
            cases t with
            | gone =>
              exact ih f2 nextIdx old (draw s).2 TrackSt.gone hWF2 ⟨o, holdnum⟩ hihfull
                (by intro h; cases h) (by intro bi pi h; cases h)
            | fly =>
              exact ih f2 nextIdx old (draw s).2 (TrackSt.res ci.toNat rp) hWF2 ⟨o, holdnum⟩
                hihfull (by intro h; cases h)
                (by
                  intro bi pi heq hbs
                  cases heq
                  exact trkFly hbs rfl)
            | res bj pj =>
              by_cases hhit : bj = ci.toNat ∧ pj = rp
              · simp only [if_pos hhit]
                exact ih f2 nextIdx old (draw s).2 TrackSt.fly hWF2 ⟨o, holdnum⟩ hihfull
                  (by
                    intro _ hbs
                    obtain ⟨holdX, hcipair⟩ := trkHit bj pj rfl hbs hhit.1 hhit.2
                    refine ⟨holdX, ?_⟩
                    rcases hnextpair hbs holdX hcipair with hp | hneg
                    · exact hp
                    · exfalso
                      obtain ⟨b5, hb5, _⟩ := hfull3 hbs
                      have := hnextOk b5 hb5
                      omega)
                  (by intro bi pi h; cases h)
              · simp only [if_neg hhit]
                exact ih f2 nextIdx old (draw s).2 (TrackSt.res bj pj) hWF2 ⟨o, holdnum⟩
                  hihfull (by intro h; cases h)
                  (by
                    intro bi pi heq hbs
                    cases heq
                    exact trkMiss bj pj rfl hbs hhit)

/-- A successful `_tryInsert`-style placement into a null slot: size/count
bookkeeping, preservation of other tracked slots, and the tracking of the
placed fingerprint itself. -/
lemma placeStep (X : List Nat) {f : IntFilter} {idx : Int} {old : JSVal} {slot : Nat}
    {f3 : IntFilter} (hWF : WFInt f)
    (hins : insertIntoBucketTr f idx old = .ok (some slot, f3))
    (hbs : 0 < f.bucketSize) (holdnn : old ≠ JSVal.null) :
    WFInt { f3 with size := f3.size + 1, insertions := f3.insertions + 1 } ∧
    f3.capacity = f.capacity ∧ f3.bucketSize = f.bucketSize ∧
    f3.fingerprintMask = f.fingerprintMask ∧
    (∀ bj pj, TrackInv X f (TrackSt.res bj pj) →
      TrackInv X { f3 with size := f3.size + 1, insertions := f3.insertions + 1 }
        (TrackSt.res bj pj)) ∧
    (old = JSVal.num (genFingerprint f.fingerprintMask X) →
      (idx = itemIdx f X ∨ idx = gIdx f.capacity (h2OfItem f X) (itemIdx f X)) →
      TrackInv X { f3 with size := f3.size + 1, insertions := f3.insertions + 1 }
        (TrackSt.res idx.toNat slot)) := by
  obtain ⟨⟨kk, hk31, hkcap⟩, hblen, hWFb, hWFz⟩ := hWF
  obtain ⟨b2, hbr2, hscan2, hf3⟩ := insertIntoBucketTr_some hins
  subst hf3
  obtain ⟨hni0, hniltB, hget2⟩ := bucketsRead_some hbr2
  obtain ⟨_, hslotcnt, hslotp⟩ := scanSlot_some hscan2
  have hslotnull : bucketRead b2 slot = JSVal.null := by
    simpa using hslotp
  have hslotbs : slot < f.bucketSize := by omega
  have hslotb2 : slot < b2.length := by
    by_contra hge
    have : bucketRead b2 slot = JSVal.undef := by
      unfold bucketRead
      rw [List.getD_eq_getElem?_getD, List.getElem?_eq_none (by omega)]
      rfl
    rw [this] at hslotnull
    cases hslotnull
  have hb2mem : b2 ∈ f.buckets := by
    obtain ⟨hlt, hb⟩ := List.getElem?_eq_some_iff.mp hget2
    rw [← hb]
    exact List.getElem_mem hlt
  have hb2len : b2.length = f.bucketSize := (hWFb hbs).1 b2 hb2mem
  have hnilt : idx.toNat < f.capacity := by
    have h := hniltB
    omega
  have hcountS : countOccupied (f.buckets.set idx.toNat (bucketWrite b2 slot old)) =
      countOccupied f.buckets + 1 := by
    have h1 : countOccupied (f.buckets.set idx.toNat (bucketWrite b2 slot old)) +
        cntOcc (f.buckets[idx.toNat]) =
        countOccupied f.buckets + cntOcc (bucketWrite b2 slot old) :=
      countOccupied_set (by omega) _
    have hb2i : f.buckets[idx.toNat] = b2 := (List.getElem?_eq_some_iff.mp hget2).2
    have hw : bucketWrite b2 slot old = b2.set slot old := by
      unfold bucketWrite
      rw [if_pos hslotb2]
    have h2 : cntOcc (bucketWrite b2 slot old) + occOf (b2[slot]) =
        cntOcc b2 + occOf old := by
      rw [hw]
      exact cntOcc_set hslotb2 old
    have hocc_slot : occOf (b2[slot]) = 0 := by
      have hread : bucketRead b2 slot = b2[slot] := bucketRead_eq_getElem hslotb2
      rw [hread] at hslotnull
      unfold occOf
      rw [if_pos hslotnull]
    have hocc_old2 : occOf old = 1 := by
      unfold occOf
      rw [if_neg holdnn]
    rw [hb2i] at h1
    omega
  refine ⟨?_, rfl, rfl, rfl, ?_, ?_⟩
  · refine ⟨⟨kk, hk31, hkcap⟩, ?_, ?_, ?_⟩
    · show (f.buckets.set idx.toNat (bucketWrite b2 slot old)).length = f.capacity
      rw [List.length_set]
      exact hblen
    · intro _
      constructor
      · intro b4 hb4
        have hb4b : b4 ∈ f.buckets.set idx.toNat (bucketWrite b2 slot old) := hb4
        show b4.length = f.bucketSize
        rcases List.mem_or_eq_of_mem_set hb4b with hmem | heq
        · exact (hWFb hbs).1 b4 hmem
        · rw [heq, bucketWrite_length hslotb2 old]
          exact hb2len
      · show f.size + 1 =
          (countOccupied (f.buckets.set idx.toNat (bucketWrite b2 slot old)) : Int)
        rw [hcountS]
        have := (hWFb hbs).2
        omega
    · intro hbs0
      exact absurd (show f.bucketSize = 0 from hbs0) (by omega)
  · intro bj pj hinv
    refine trackInv_transport hinv rfl rfl rfl ?_
    obtain ⟨_, hbjc, hpjc, ⟨b0, hb0, hb0read⟩, hpair⟩ := hinv
    show ∃ bb, (f.buckets.set idx.toNat (bucketWrite b2 slot old))[bj]? = some bb ∧
      bucketRead bb pj = JSVal.num (genFingerprint f.fingerprintMask X)
    by_cases hsame : bj = idx.toNat
    · have hb0b2 : b0 = b2 := by
        rw [hsame, hget2] at hb0
        cases hb0
        rfl
      have hpne : slot ≠ pj := by
        intro he
        rw [hb0b2, ← he] at hb0read
        rw [hb0read] at hslotnull
        cases hslotnull
      refine ⟨bucketWrite b2 slot old, ?_, ?_⟩
      · rw [hsame]
        exact List.getElem?_set_self (by omega)
      · rw [bucketRead_write_ne hslotb2 old hpne, ← hb0b2]
        exact hb0read
    · refine ⟨b0, ?_, hb0read⟩
      rw [List.getElem?_set_ne (by omega)]
      exact hb0
  · intro holdX hpairIn
    refine ⟨hbs, hnilt, hslotbs, ?_, ?_⟩
    · refine ⟨bucketWrite b2 slot old, ?_, ?_⟩
      · show (f.buckets.set idx.toNat (bucketWrite b2 slot old))[idx.toNat]? = _
        exact List.getElem?_set_self (by omega)
      · rw [bucketRead_write_self hslotb2 old]
        exact holdX
    · have hcast : ((idx.toNat : Nat) : Int) = idx := by omega
      show ((idx.toNat : Nat) : Int) = itemIdx f X ∨
        ((idx.toNat : Nat) : Int) = gIdx f.capacity (h2OfItem f X) (itemIdx f X)
      rw [hcast]
      exact hpairIn

/-- Unfolding of `insertTr` on a non-null item, with the fingerprint and
primary index named by equations. -/
lemma insertTr_eq (f : IntFilter) (it : List Nat) (s : List Nat) (t : TrackSt)
    (fp i1 : Int) (hfp : fp = genFingerprint f.fingerprintMask it)
    (hi1 : i1 = jsRem (jsHash it : Int) (f.capacity : Int)) :
    insertTr f (some it) s t =
      match getSecondBucketIndex f i1 (.num fp) with
      | .error e => ((.error e, f, s), dropFly t)
      | .ok i2 =>
        match insertIntoBucketTr f i1 (.num fp) with
        | .error e => ((.error e, f, s), dropFly t)
        | .ok (some slot, f1) =>
          ((.ok true, { f1 with size := f1.size + 1, insertions := f1.insertions + 1 }, s),
            if t = .fly then .res i1.toNat slot else t)
        | .ok (none, f1) =>
          match insertIntoBucketTr f1 i2 (.num fp) with
          | .error e => ((.error e, f1, s), dropFly t)
          | .ok (some slot, f2) =>
            ((.ok true, { f2 with size := f2.size + 1, insertions := f2.insertions + 1 }, s),
              if t = .fly then .res i2.toNat slot else t)
          | .ok (none, f2) =>
            kickLoopTr f2 f2.maxNumKicks.toNat
              (if (draw s).1 % 2 = 0 then i1 else i2) (.num fp) (draw s).2 t := by
  subst hfp hi1
  simp only [insertTr]

/-- Combined invariant preservation through one tracked `insert` call. -/
lemma insertTr_main (X : List Nat) (f : IntFilter) (item : Option (List Nat))
    (s : List Nat) (t : TrackSt) (hWF : WFInt f)
    (hflyX : t = TrackSt.fly → item = some X)
    (hres : ∀ bi pi, t = TrackSt.res bi pi → 0 < f.bucketSize →
      TrackInv X f (TrackSt.res bi pi)) :
    WFInt (insertTr f item s t).1.2.1 ∧
    (insertTr f item s t).1.2.1.capacity = f.capacity ∧
    (insertTr f item s t).1.2.1.bucketSize = f.bucketSize ∧
    (insertTr f item s t).1.2.1.fingerprintMask = f.fingerprintMask ∧
    ((insertTr f item s t).1.1 = .ok true → 0 < f.bucketSize) ∧
    (0 < f.bucketSize → TrackInv X (insertTr f item s t).1.2.1 (insertTr f item s t).2) := by
  cases item with
  | none =>
    refine ⟨hWF, rfl, rfl, rfl, fun h => by simp [insertTr] at h, ?_⟩
    intro hbs
    show TrackInv X f t
    cases t with
    | fly => exact absurd (hflyX rfl) (by simp)
    | res bi pi => exact hres bi pi rfl hbs
    | gone => trivial
  | some it =>
    rw [insertTr_eq f it s t _ _ rfl rfl]
    set fp : Int := genFingerprint f.fingerprintMask it with hfp
    set i1 : Int := jsRem (jsHash it : Int) (f.capacity : Int) with hi1
    cases hg : getSecondBucketIndex f i1 (JSVal.num fp) with
    | error e =>
      refine ⟨hWF, rfl, rfl, rfl, fun h => by simp at h, ?_⟩
      intro hbs
      cases t with
      | fly => trivial
      | gone => trivial
      | res bi pi => exact hres bi pi rfl hbs
    | ok i2 =>
      simp only []
      obtain ⟨o, hnum, hi2eq⟩ := getSecondBucketIndex_ok hg
      cases hnum
      cases hins1 : insertIntoBucketTr f i1 (JSVal.num fp) with
      | error e =>
        refine ⟨hWF, rfl, rfl, rfl, fun h => by simp at h, ?_⟩
        intro hbs
        cases t with
        | fly => trivial
        | gone => trivial
        | res bi pi => exact hres bi pi rfl hbs
      | ok pr =>
        rcases pr with ⟨oslot, f1⟩
        cases oslot with
        | some slot =>
          simp only []
          have hbs : 0 < f.bucketSize := by
            obtain ⟨b, hbrx, hscanx, _⟩ := insertIntoBucketTr_some hins1
            obtain ⟨_, hcnt, _⟩ := scanSlot_some hscanx
            omega
          obtain ⟨hWF1, hc1, hb1, hm1, htrans, hplacep⟩ :=
            placeStep X hWF hins1 hbs (by intro h; cases h)
          refine ⟨hWF1, hc1, hb1, hm1, fun _ => hbs, ?_⟩
          intro _
          cases t with
          | fly =>
            have hit : some it = some X := hflyX rfl
            cases hit
            exact hplacep rfl (Or.inl rfl)
          | gone => trivial
          | res bi pi => exact htrans bi pi (hres bi pi rfl hbs)
        | none =>
          obtain ⟨hf1eq, hfull1⟩ := insertIntoBucketTr_none hins1
          have hf1s := hf1eq.symm
          subst hf1s
          simp only []
          cases hins2 : insertIntoBucketTr f i2 (JSVal.num fp) with
          | error e =>
            refine ⟨hWF, rfl, rfl, rfl, fun h => by simp at h, ?_⟩
            intro hbs
            cases t with
            | fly => trivial
            | gone => trivial
            | res bi pi => exact hres bi pi rfl hbs
          | ok pr2 =>
            rcases pr2 with ⟨oslot2, f2⟩
            cases oslot2 with
            | some slot =>
              simp only []
              have hbs : 0 < f.bucketSize := by
                obtain ⟨b, hbrx, hscanx, _⟩ := insertIntoBucketTr_some hins2
                obtain ⟨_, hcnt, _⟩ := scanSlot_some hscanx
                omega
              obtain ⟨hWF2, hc2, hb2, hm2, htrans2, hplacep2⟩ :=
                placeStep X hWF hins2 hbs (by intro h; cases h)
              refine ⟨hWF2, hc2, hb2, hm2, fun _ => hbs, ?_⟩
              intro _
              cases t with
              | fly =>
                have hit : some it = some X := hflyX rfl
                cases hit
                exact hplacep2 rfl (Or.inr hi2eq)
              | gone => trivial
              | res bi pi => exact htrans2 bi pi (hres bi pi rfl hbs)
            | none =>
              obtain ⟨hf2eq, hfull2⟩ := insertIntoBucketTr_none hins2
              have hf2s := hf2eq.symm
              subst hf2s
              simp only []
              refine kickLoopTr_main X f.maxNumKicks.toNat f _ (JSVal.num fp) (draw s).2 t
                hWF ⟨fp, rfl⟩ ?_ ?_ hres
              · intro hbs b hb
                by_cases hr : (draw s).1 % 2 = 0
                · rw [if_pos hr] at hb
                  obtain ⟨b1, hb1, hscan1⟩ := hfull1 hbs
                  rw [hb] at hb1
                  cases hb1
                  exact hscan1
                · rw [if_neg hr] at hb
                  obtain ⟨b1, hb1, hscan1⟩ := hfull2 hbs
                  rw [hb] at hb1
                  cases hb1
                  exact hscan1
              · intro htf hbs
                have hit : some it = some X := hflyX htf
                cases hit
                refine ⟨rfl, ?_⟩
                by_cases hr : (draw s).1 % 2 = 0
                · rw [if_pos hr]
                  exact Or.inl rfl
                · rw [if_neg hr]
                  exact Or.inr hi2eq

/-- A successful `_removeFromBucket` removal: size/count bookkeeping and
preservation of tracked slots other than the one removed. -/
lemma removeStep (X : List Nat) {f : IntFilter} {idx : Int} {fp : JSVal} {slot : Nat}
    {f3 : IntFilter} (hWF : WFInt f)
    (hrem : removeFromBucketTr f idx fp = .ok (some slot, f3))
    (hbs : 0 < f.bucketSize) (hfpnn : fp ≠ JSVal.null) :
    WFInt { f3 with size := f3.size - 1 } ∧
    f3.capacity = f.capacity ∧ f3.bucketSize = f.bucketSize ∧
    f3.fingerprintMask = f.fingerprintMask ∧
    (∀ bj pj, TrackInv X f (TrackSt.res bj pj) → ¬(bj = idx.toNat ∧ pj = slot) →
      TrackInv X { f3 with size := f3.size - 1 } (TrackSt.res bj pj)) := by
  obtain ⟨⟨kk, hk31, hkcap⟩, hblen, hWFb, hWFz⟩ := hWF
  obtain ⟨b2, hbr2, hscan2, hf3⟩ := removeFromBucketTr_some hrem
  subst hf3
  obtain ⟨hni0, hniltB, hget2⟩ := bucketsRead_some hbr2
  obtain ⟨_, hslotcnt, hslotp⟩ := scanSlot_some hscan2
  have hslotfp : bucketRead b2 slot = fp := by
    simpa using hslotp
  have hslotbs : slot < f.bucketSize := by omega
  have hslotb2 : slot < b2.length := by
    by_contra hge
    have : bucketRead b2 slot = JSVal.undef := by
      unfold bucketRead
      rw [List.getD_eq_getElem?_getD, List.getElem?_eq_none (by omega)]
      rfl
    rw [this] at hslotfp
    rw [← hslotfp] at hfpnn
    have hb2mem : b2 ∈ f.buckets := by
      obtain ⟨hlt, hb⟩ := List.getElem?_eq_some_iff.mp hget2
      rw [← hb]
      exact List.getElem_mem hlt
    have hb2len : b2.length = f.bucketSize := (hWFb hbs).1 b2 hb2mem
    omega
  have hb2mem : b2 ∈ f.buckets := by
    obtain ⟨hlt, hb⟩ := List.getElem?_eq_some_iff.mp hget2
    rw [← hb]
    exact List.getElem_mem hlt
  have hb2len : b2.length = f.bucketSize := (hWFb hbs).1 b2 hb2mem
  have hnilt : idx.toNat < f.capacity := by
    have h := hniltB
    omega
  have hcountS : countOccupied (f.buckets.set idx.toNat (bucketWrite b2 slot JSVal.null)) + 1 =
      countOccupied f.buckets := by
    have h1 : countOccupied (f.buckets.set idx.toNat (bucketWrite b2 slot JSVal.null)) +
        cntOcc (f.buckets[idx.toNat]) =
        countOccupied f.buckets + cntOcc (bucketWrite b2 slot JSVal.null) :=
      countOccupied_set (by omega) _
    have hb2i : f.buckets[idx.toNat] = b2 := (List.getElem?_eq_some_iff.mp hget2).2
    have hw : bucketWrite b2 slot JSVal.null = b2.set slot JSVal.null := by
      unfold bucketWrite
      rw [if_pos hslotb2]
    have h2 : cntOcc (bucketWrite b2 slot JSVal.null) + occOf (b2[slot]) =
        cntOcc b2 + occOf JSVal.null := by
      rw [hw]
      exact cntOcc_set hslotb2 JSVal.null
    have hocc_slot : occOf (b2[slot]) = 1 := by
      have hread : bucketRead b2 slot = b2[slot] := bucketRead_eq_getElem hslotb2
      rw [hread] at hslotfp
      unfold occOf
      rw [hslotfp, if_neg hfpnn]
    have hocc_null : occOf JSVal.null = 0 := by
      unfold occOf
      rw [if_pos rfl]
    rw [hb2i] at h1
    omega
  refine ⟨?_, rfl, rfl, rfl, ?_⟩
  · refine ⟨⟨kk, hk31, hkcap⟩, ?_, ?_, ?_⟩
    · show (f.buckets.set idx.toNat (bucketWrite b2 slot JSVal.null)).length = f.capacity
      rw [List.length_set]
      exact hblen
    · intro _
      constructor
      · intro b4 hb4
        have hb4b : b4 ∈ f.buckets.set idx.toNat (bucketWrite b2 slot JSVal.null) := hb4
        show b4.length = f.bucketSize
        rcases List.mem_or_eq_of_mem_set hb4b with hmem | heq
        · exact (hWFb hbs).1 b4 hmem
        · rw [heq, bucketWrite_length hslotb2 JSVal.null]
          exact hb2len
      · show f.size - 1 =
          (countOccupied (f.buckets.set idx.toNat (bucketWrite b2 slot JSVal.null)) : Int)
        have := (hWFb hbs).2
        omega
    · intro hbs0
      exact absurd (show f.bucketSize = 0 from hbs0) (by omega)
  · intro bj pj hinv hne
    refine trackInv_transport hinv rfl rfl rfl ?_
    obtain ⟨_, hbjc, hpjc, ⟨b0, hb0, hb0read⟩, hpair⟩ := hinv
    show ∃ bb, (f.buckets.set idx.toNat (bucketWrite b2 slot JSVal.null))[bj]? = some bb ∧
      bucketRead bb pj = JSVal.num (genFingerprint f.fingerprintMask X)
    by_cases hsame : bj = idx.toNat
    · have hb0b2 : b0 = b2 := by
        rw [hsame, hget2] at hb0
        cases hb0
        rfl
      have hpne : slot ≠ pj := by
        intro he
        exact hne ⟨hsame, he.symm⟩
      refine ⟨bucketWrite b2 slot JSVal.null, ?_, ?_⟩
      · rw [hsame]
        exact List.getElem?_set_self (by omega)
      · rw [bucketRead_write_ne hslotb2 JSVal.null hpne, ← hb0b2]
        exact hb0read
    · refine ⟨b0, ?_, hb0read⟩
      rw [List.getElem?_set_ne (by omega)]
      exact hb0

/-- Unfolding of `removeTr` on a non-null item. -/
lemma removeTr_eq (f : IntFilter) (it : List Nat) (t : TrackSt)
    (fp i1 : Int) (hfp : fp = genFingerprint f.fingerprintMask it)
    (hi1 : i1 = jsRem (jsHash it : Int) (f.capacity : Int)) :
    removeTr f (some it) t =
      match getSecondBucketIndex f i1 (.num fp) with
      | .error e => ((.error e, f), t)
      | .ok i2 =>
        match removeFromBucketTr f i1 (.num fp) with
        | .error e => ((.error e, f), t)
        | .ok (some slot, f1) =>
          ((.ok true, { f1 with size := f1.size - 1 }),
            if t = .res i1.toNat slot then .gone else t)
        | .ok (none, f1) =>
          match removeFromBucketTr f1 i2 (.num fp) with
          | .error e => ((.error e, f1), t)
          | .ok (some slot, f2) =>
            ((.ok true, { f2 with size := f2.size - 1 }),
              if t = .res i2.toNat slot then .gone else t)
          | .ok (none, f2) => ((.ok false, f2), t) := by
  subst hfp hi1
  simp only [removeTr]

/-- Combined invariant preservation through one tracked `remove` call. -/
lemma removeTr_main (X : List Nat) (f : IntFilter) (item : Option (List Nat))
    (t : TrackSt) (hWF : WFInt f) (hnf : t ≠ TrackSt.fly)
    (hres : ∀ bi pi, t = TrackSt.res bi pi → 0 < f.bucketSize →
      TrackInv X f (TrackSt.res bi pi)) :
    WFInt (removeTr f item t).1.2 ∧
    (removeTr f item t).1.2.capacity = f.capacity ∧
    (removeTr f item t).1.2.bucketSize = f.bucketSize ∧
    (removeTr f item t).1.2.fingerprintMask = f.fingerprintMask ∧
    (0 < f.bucketSize → TrackInv X (removeTr f item t).1.2 (removeTr f item t).2) := by
  cases item with
  | none =>
    refine ⟨hWF, rfl, rfl, rfl, ?_⟩
    intro hbs
    show TrackInv X f t
    cases t with
    | fly => exact absurd rfl hnf
    | res bi pi => exact hres bi pi rfl hbs
    | gone => trivial
  | some it =>
    rw [removeTr_eq f it t _ _ rfl rfl]
    set fp : Int := genFingerprint f.fingerprintMask it with hfp
    set i1 : Int := jsRem (jsHash it : Int) (f.capacity : Int) with hi1
    cases hg : getSecondBucketIndex f i1 (JSVal.num fp) with
    | error e =>
      refine ⟨hWF, rfl, rfl, rfl, ?_⟩
      intro hbs
      cases t with
      | fly => exact absurd rfl hnf
      | gone => trivial
      | res bi pi => exact hres bi pi rfl hbs
    | ok i2 =>
      simp only []
      cases hrem1 : removeFromBucketTr f i1 (JSVal.num fp) with
      | error e =>
        refine ⟨hWF, rfl, rfl, rfl, ?_⟩
        intro hbs
        cases t with
        | fly => exact absurd rfl hnf
        | gone => trivial
        | res bi pi => exact hres bi pi rfl hbs
      | ok pr =>
        rcases pr with ⟨oslot, f1⟩
        cases oslot with
        | some slot =>
          simp only []
          have hbs : 0 < f.bucketSize := by
            obtain ⟨b, hbrx, hscanx, _⟩ := removeFromBucketTr_some hrem1
            obtain ⟨_, hcnt, _⟩ := scanSlot_some hscanx
            omega
          obtain ⟨hWF1, hc1, hb1, hm1, htrans⟩ :=
            removeStep X hWF hrem1 hbs (by intro h; cases h)
          refine ⟨hWF1, hc1, hb1, hm1, ?_⟩
          intro _
          cases t with
          | fly => exact absurd rfl hnf
          | gone => trivial
          | res bi pi =>
            by_cases hhit : TrackSt.res bi pi = TrackSt.res i1.toNat slot
            · simp only [if_pos hhit]
              trivial
            · simp only [if_neg hhit]
              refine htrans bi pi (hres bi pi rfl hbs) ?_
              intro ⟨h1, h2⟩
              exact hhit (by rw [h1, h2])
        | none =>
          have hf1eq := (removeFromBucketTr_none hrem1).symm
          subst hf1eq
          simp only []
          cases hrem2 : removeFromBucketTr f i2 (JSVal.num fp) with
          | error e =>
            refine ⟨hWF, rfl, rfl, rfl, ?_⟩
            intro hbs
            cases t with
            | fly => exact absurd rfl hnf
            | gone => trivial
            | res bi pi => exact hres bi pi rfl hbs
          | ok pr2 =>
            rcases pr2 with ⟨oslot2, f2⟩
            cases oslot2 with
            | some slot =>
              simp only []
              have hbs : 0 < f.bucketSize := by
                obtain ⟨b, hbrx, hscanx, _⟩ := removeFromBucketTr_some hrem2
                obtain ⟨_, hcnt, _⟩ := scanSlot_some hscanx
                omega
              obtain ⟨hWF2, hc2, hb2, hm2, htrans2⟩ :=
                removeStep X hWF hrem2 hbs (by intro h; cases h)
              refine ⟨hWF2, hc2, hb2, hm2, ?_⟩
              intro _
              cases t with
              | fly => exact absurd rfl hnf
              | gone => trivial
              | res bi pi =>
                by_cases hhit : TrackSt.res bi pi = TrackSt.res i2.toNat slot
                · simp only [if_pos hhit]
                  trivial
                · simp only [if_neg hhit]
                  refine htrans2 bi pi (hres bi pi rfl hbs) ?_
                  intro ⟨h1, h2⟩
                  exact hhit (by rw [h1, h2])
            | none =>
              have hf2eq := (removeFromBucketTr_none hrem2).symm
              subst hf2eq
              refine ⟨hWF, rfl, rfl, rfl, ?_⟩
              intro hbs
              cases t with
              | fly => exact absurd rfl hnf
              | gone => trivial
              | res bi pi => exact hres bi pi rfl hbs

lemma countOccupied_replicate_null (n m : Nat) :
    countOccupied (List.replicate n (List.replicate m JSVal.null)) = 0 := by
  unfold countOccupied
  rw [List.map_replicate, List.sum_replicate]
  have h0 : (List.replicate m JSVal.null).countP (fun v => !(v == JSVal.null)) = 0 := by
    apply List.countP_eq_zero.mpr
    intro a ha
    rw [List.eq_of_mem_replicate ha]
    simp
  rw [h0]
  simp

lemma clearInt_WF (f : IntFilter) (hWF : WFInt f) : WFInt (clearInt f) := by
  refine ⟨hWF.1, ?_, ?_, ?_⟩
  · show (List.replicate f.capacity (List.replicate f.bucketSize JSVal.null)).length = f.capacity
    exact List.length_replicate _ _
  · intro _
    constructor
    · intro b hb
      have hb2 : b ∈ List.replicate f.capacity (List.replicate f.bucketSize JSVal.null) := hb
      rw [List.eq_of_mem_replicate hb2]
      exact List.length_replicate _ _
    · show (0 : Int) = (countOccupied
        (List.replicate f.capacity (List.replicate f.bucketSize JSVal.null)) : Int)
      rw [countOccupied_replicate_null]
      rfl
  · intro _
    rfl

lemma intCtor_WF {c bs fb mk : Int} {f : IntFilter} (hcap : c ≤ 2147483648)
    (hok : intCtor c bs fb mk = .ok f) : WFInt f := by
  simp only [intCtor] at hok
  by_cases h1 : c ≤ 0
  · rw [if_pos h1] at hok
    cases hok
  rw [if_neg h1] at hok
  by_cases h2 : 0 < (nextPowerOf2 c).toNat ∧ bs < 0
  · rw [if_pos h2] at hok
    cases hok
  rw [if_neg h2] at hok
  cases hok
  obtain ⟨k, hk, hnp⟩ := nextPowerOf2_pow (by omega) hcap
  have hcapeq : (nextPowerOf2 c).toNat = 2 ^ k := by
    rw [hnp]
    exact Int.toNat_natCast _
  refine ⟨⟨k, hk, hcapeq⟩, ?_, ?_, ?_⟩
  · show (List.replicate (nextPowerOf2 c).toNat
      (List.replicate bs.toNat JSVal.null)).length = (nextPowerOf2 c).toNat
    exact List.length_replicate _ _
  · intro _
    constructor
    · intro b hb
      have hb2 : b ∈ List.replicate (nextPowerOf2 c).toNat
          (List.replicate bs.toNat JSVal.null) := hb
      rw [List.eq_of_mem_replicate hb2]
      exact List.length_replicate _ _
    · show (0 : Int) = (countOccupied (List.replicate (nextPowerOf2 c).toNat
        (List.replicate bs.toNat JSVal.null)) : Int)
      rw [countOccupied_replicate_null]
      rfl
  · intro _
    rfl

/-- Every reachable integer-variant state is well-formed. -/
lemma reachInt_WF {f : IntFilter} (h : ReachInt f) : WFInt f := by
  induction h with
  | create hcap hok => exact intCtor_WF hcap hok
  | insert item s hr ih =>
    have h := insertTr_main [] _ item s TrackSt.gone ih
      (by intro hh; cases hh) (by intro bi pi hh; cases hh)
    rw [← insertTr_proj _ item s TrackSt.gone]
    exact h.1
  | remove item hr ih =>
    have h := removeTr_main [] _ item TrackSt.gone ih
      (by intro hh; cases hh) (by intro bi pi hh; cases hh)
    rw [← removeTr_proj _ item TrackSt.gone]
    exact h.1
  | clear hr ih => exact clearInt_WF _ ih

/-- Master invariant of a tracked run: the state is well-formed, buckets
are nonempty, and the ghost location really holds the item's fingerprint. -/
lemma trackedRun_main (X : List Nat) (f : IntFilter) (t : TrackSt)
    (h : TrackedRun X f t) : WFInt f ∧ 0 < f.bucketSize ∧ TrackInv X f t := by
  induction h with
  | start hf hins hok =>
    rename_i f0 s out t1
    have hWF := reachInt_WF hf
    have h := insertTr_main X f0 (some X) s TrackSt.fly hWF (fun _ => rfl)
      (by intro bi pi hh; cases hh)
    rw [hins] at h
    have hbs : 0 < f0.bucketSize := h.2.2.2.2.1 hok
    have hbseq : out.2.1.bucketSize = f0.bucketSize := h.2.2.1
    refine ⟨h.1, by omega, ?_⟩
    exact h.2.2.2.2.2 hbs
  | insert item s hrun hstep ih =>
    rename_i f0 t0 out t1
    obtain ⟨hWF, hbs, hinv⟩ := ih
    have h := insertTr_main X f0 item s t0 hWF
      (fun hfly => False.elim (by rw [hfly] at hinv; exact hinv))
      (fun bi pi ht _ => by rw [ht] at hinv; exact hinv)
    rw [hstep] at h
    have hbseq : out.2.1.bucketSize = f0.bucketSize := h.2.2.1
    refine ⟨h.1, by omega, ?_⟩
    exact h.2.2.2.2.2 hbs
  | remove item hrun hstep ih =>
    rename_i f0 t0 out t1
    obtain ⟨hWF, hbs, hinv⟩ := ih
    have h := removeTr_main X f0 item t0 hWF
      (fun hfly => by rw [hfly] at hinv; exact hinv)
      (fun bi pi ht _ => by rw [ht] at hinv; exact hinv)
    rw [hstep] at h
    have hbseq : out.2.bucketSize = f0.bucketSize := h.2.2.1
    refine ⟨h.1, by omega, ?_⟩
    exact h.2.2.2.2 hbs
  | clear hrun ih =>
    obtain ⟨hWF, hbs, hinv⟩ := ih
    exact ⟨clearInt_WF _ hWF, hbs, trivial⟩

/-- Unfolding of `lookup` on a non-null item. -/
lemma lookupInt_eq (f : IntFilter) (it : List Nat) (fp i1 : Int)
    (hfp : fp = genFingerprint f.fingerprintMask it)
    (hi1 : i1 = jsRem (jsHash it : Int) (f.capacity : Int)) :
    lookupInt f (some it) =
      match getSecondBucketIndex f i1 (.num fp) with
      | .error e => .error e
      | .ok i2 =>
        match containsFp f i1 (.num fp) with
        | .error e => .error e
        | .ok true => .ok true
        | .ok false => containsFp f i2 (.num fp) := by
  subst hfp hi1
  simp only [lookupInt]

/-- A bucket index that holds the item's fingerprint makes `_containsFp`
answer `true`. -/
lemma containsFp_at_tracked (X : List Nat) (f : IntFilter) (bi pi : Nat) (idx : Int)
    (hWF : WFInt f) (hbs : 0 < f.bucketSize) (hbilt : bi < f.capacity)
    (hpilt : pi < f.bucketSize)
    (hslot : ∃ b, f.buckets[bi]? = some b ∧
      bucketRead b pi = JSVal.num (genFingerprint f.fingerprintMask X))
    (hidx : idx = (bi : Int)) :
    containsFp f idx (JSVal.num (genFingerprint f.fingerprintMask X)) = .ok true := by
  obtain ⟨b0, hb0, hb0read⟩ := hslot
  have hbr : bucketsRead f idx = some b0 := by
    unfold bucketsRead
    rw [if_neg (by omega), hidx]
    have : ((bi : Int)).toNat = bi := by omega
    rw [this]
    exact hb0
  unfold containsFp
  rw [hbr]
  cases hscan : scanSlot b0 (fun v => v == JSVal.num (genFingerprint f.fingerprintMask X))
      0 f.bucketSize with
  | some j => simp only [hscan]
  | none =>
    exfalso
    refine scanSlot_found (Nat.zero_le pi) (by omega) ?_ hscan
    rw [hb0read]
    simp

lemma tryInsertB_fields {f : BufFilter} {i : Nat} {fp : Bytes} {r : Bool} {f1 : BufFilter}
    (h : tryInsertB f i fp = .ok (r, f1)) :
    f1.bucketCount = f.bucketCount ∧ f1.bucketSize = f.bucketSize ∧
    f1.fingerprintSize = f.fingerprintSize ∧ f1.maxKicks = f.maxKicks := by
  unfold tryInsertB at h
  split at h
  · cases h
  · split at h
    · cases h
      exact ⟨rfl, rfl, rfl, rfl⟩
    · cases h
      exact ⟨rfl, rfl, rfl, rfl⟩

lemma reseatOne_fields (D : Bytes → Bytes) (f : BufFilter) (fp : Bytes) :
    (reseatOne D f fp).2.bucketCount = f.bucketCount ∧
    (reseatOne D f fp).2.bucketSize = f.bucketSize := by
  simp only [reseatOne]
  split
  next heq => exact ⟨rfl, rfl⟩
  next f1 heq =>
    obtain ⟨h1, h2, _, _⟩ := tryInsertB_fields heq
    exact ⟨h1, h2⟩
  next f1 heq =>
    obtain ⟨h1, h2, _, _⟩ := tryInsertB_fields heq
    split
    next heq2 => exact ⟨h1, h2⟩
    next f2 heq2 =>
      obtain ⟨h3, h4, _, _⟩ := tryInsertB_fields heq2
      exact ⟨h3.trans h1, h4.trans h2⟩
    next f2 heq2 =>
      obtain ⟨h3, h4, _, _⟩ := tryInsertB_fields heq2
      exact ⟨h3.trans h1, h4.trans h2⟩

lemma reseatList_fields (D : Bytes → Bytes) :
    ∀ (fps : List Bytes) (f : BufFilter),
    (reseatList D fps f).2.bucketCount = f.bucketCount ∧
    (reseatList D fps f).2.bucketSize = f.bucketSize := by
  intro fps
  induction fps with
  | nil => intro f; exact ⟨rfl, rfl⟩
  | cons fp rest ih =>
    intro f
    simp only [reseatList]
    obtain ⟨h1, h2⟩ := reseatOne_fields D f fp
    split
    next f1 heq =>
      rw [heq] at h1 h2
      exact ⟨h1, h2⟩
    next u f1 heq =>
      obtain ⟨h3, h4⟩ := ih f1
      rw [heq] at h1 h2
      exact ⟨h3.trans h1, h4.trans h2⟩

/-- `_resize` doubles `bucketCount` (also when the reseat loop throws
midway). -/
lemma resizeB_bucketCount (D : Bytes → Bytes) (f : BufFilter) :
    (resizeB D f).2.bucketCount = f.bucketCount * 2 ∧
    (resizeB D f).2.bucketSize = f.bucketSize := by
  simp only [resizeB]
  exact reseatList_fields D _ _

/-- The buffer-variant `insert` never reports an exhausted kick budget:
`false` is absorbed by `_resize` and a retry. -/
lemma insertB_ne_false (D : Bytes → Bytes) :
    ∀ (fuel : Nat) (f : BufFilter) (item : Bytes) (s : List Nat),
    (insertB D fuel f item s).1 ≠ .ok false := by
  intro fuel
  induction fuel with
  | zero =>
    intro f item s h
    simp [insertB] at h
  | succ n ih =>
    intro f item s h
    simp only [insertB] at h
    split at h
    · simp at h
    · simp at h
    · split at h
      · simp at h
      · simp at h
      · split at h
        · simp at h
        · split at h
          · simp at h
          · exact ih _ item _ h
        · simp at h

/-- On kick exhaustion the buffer `insert` resizes (doubling the bucket
array) and retries the original item exactly once at the next recursion
depth. -/
lemma insertB_retry (D : Bytes → Bytes) (n : Nat) (f : BufFilter) (item : Bytes)
    (s : List Nat) (fp : Bytes) (i1 i2 : Nat) (f1 f2 f3 : BufFilter) (s2 : List Nat)
    (u : Unit) (f4 : BufFilter)
    (hfp : fp = bufFingerprint D f item) (hi1 : i1 = bufIndex D f item)
    (hi2 : i2 = bufAltIndex D f fp i1)
    (h1 : tryInsertB f i1 fp = .ok (false, f1))
    (h2 : tryInsertB f1 i2 fp = .ok (false, f2))
    (hk : kickLoopB D f2 f2.maxKicks (if (draw s).1 % 2 = 0 then i1 else i2) fp (draw s).2 =
      (.ok false, f3, s2))
    (hr : resizeB D f3 = (.ok u, f4)) :
    insertB D (n + 1) f item s = insertB D n f4 item s2 ∧
    f4.bucketCount = f3.bucketCount * 2 := by
  constructor
  · subst hfp hi1 hi2
    simp only [insertB, h1, h2, hk, hr]
  · have := (resizeB_bucketCount D f3).1
    rw [hr] at this
    exact this

lemma tryInsertB_WF {f : BufFilter} {i : Nat} {fp : Bytes} {r : Bool} {f1 : BufFilter}
    (h : tryInsertB f i fp = .ok (r, f1)) (hWF : WFBuf f) : WFBuf f1 := by
  unfold tryInsertB at h
  split at h
  · cases h
  next b hb =>
    split at h
    next hlen =>
      cases h
      constructor
      · show (f.buckets.set i (b ++ [fp])).length = f.bucketCount
        rw [List.length_set]
        exact hWF.1
      · intro hbs b4 hb4
        have hb4b : b4 ∈ f.buckets.set i (b ++ [fp]) := hb4
        rcases List.mem_or_eq_of_mem_set hb4b with hmem | heq
        · exact hWF.2 hbs b4 hmem
        · rw [heq, List.length_append]
          simp only [List.length_cons, List.length_nil]
          omega
    · cases h
      exact hWF

lemma kickLoopB_WF (D : Bytes → Bytes) :
    ∀ (fuel : Nat) (f : BufFilter) (idx : Nat) (cur : Bytes) (s : List Nat),
    WFBuf f →
    WFBuf (kickLoopB D f fuel idx cur s).2.1 ∧
    (kickLoopB D f fuel idx cur s).2.1.bucketCount = f.bucketCount ∧
    (kickLoopB D f fuel idx cur s).2.1.bucketSize = f.bucketSize := by
  intro fuel
  induction fuel with
  | zero =>
    intro f idx cur s hWF
    exact ⟨hWF, rfl, rfl⟩
  | succ n ih =>
    intro f idx cur s hWF
    simp only [kickLoopB]
    split
    · exact ⟨hWF, rfl, rfl⟩
    next b hb =>
      have hbmem : b ∈ f.buckets := by
        obtain ⟨hlt, hbe⟩ := List.getElem?_eq_some_iff.mp hb
        rw [← hbe]
        exact List.getElem_mem hlt
      have hWF1 : WFBuf { f with buckets := f.buckets.set idx (bucketWriteB b (if b.length = 0 then 0 else (draw s).1 % b.length) cur) } := by
        constructor
        · show (f.buckets.set idx _).length = f.bucketCount
          rw [List.length_set]
          exact hWF.1
        · intro hbs b4 hb4
          have hb4b : b4 ∈ f.buckets.set idx (bucketWriteB b (if b.length = 0 then 0 else (draw s).1 % b.length) cur) := hb4
          rcases List.mem_or_eq_of_mem_set hb4b with hmem | heq
          · exact hWF.2 hbs b4 hmem
          · rw [heq]
            unfold bucketWriteB
            by_cases hb0 : b.length = 0
            · rw [if_pos hb0, if_neg (by omega)]
              rw [List.length_append, hb0]
              simpa using hbs
            · rw [if_neg hb0, if_pos (Nat.mod_lt _ (by omega)), List.length_set]
              exact hWF.2 hbs b hbmem
      split
      · exact ⟨hWF1, rfl, rfl⟩
      next old hold =>
        split
        next heq => exact ⟨hWF1, rfl, rfl⟩
        next f2 heq =>
          obtain ⟨h1, h2, _, _⟩ := tryInsertB_fields heq
          exact ⟨tryInsertB_WF heq hWF1, h1, h2⟩
        next f2 heq =>
          obtain ⟨h1, h2, _, _⟩ := tryInsertB_fields heq
          obtain ⟨hW, hc, hbsz⟩ := ih f2 _ old _ (tryInsertB_WF heq hWF1)
          exact ⟨hW, hc.trans h1, hbsz.trans h2⟩

lemma reseatOne_WF (D : Bytes → Bytes) (f : BufFilter) (fp : Bytes) (hWF : WFBuf f) :
    WFBuf (reseatOne D f fp).2 := by
  simp only [reseatOne]
  split
  · exact hWF
  next f1 heq => exact tryInsertB_WF heq hWF
  next f1 heq =>
    have hWF1 := tryInsertB_WF heq hWF
    split
    next heq2 => exact hWF1
    next f2 heq2 => exact tryInsertB_WF heq2 hWF1
    next f2 heq2 => exact tryInsertB_WF heq2 hWF1

lemma reseatList_WF (D : Bytes → Bytes) :
    ∀ (fps : List Bytes) (f : BufFilter), WFBuf f → WFBuf (reseatList D fps f).2 := by
  intro fps
  induction fps with
  | nil => intro f hWF; exact hWF
  | cons fp rest ih =>
    intro f hWF
    have h1 := reseatOne_WF D f fp hWF
    simp only [reseatList]
    split
    next f1 heq =>
      rw [heq] at h1
      exact h1
    next u f1 heq =>
      rw [heq] at h1
      exact ih f1 h1

lemma resizeB_WF (D : Bytes → Bytes) (f : BufFilter) : WFBuf (resizeB D f).2 := by
  simp only [resizeB]
  refine reseatList_WF D _ _ ⟨?_, ?_⟩
  · show (List.replicate (f.bucketCount * 2) ([] : List Bytes)).length = f.bucketCount * 2
    exact List.length_replicate _ _
  · intro _ b hb
    have hb2 : b ∈ List.replicate (f.bucketCount * 2) ([] : List Bytes) := hb
    rw [List.eq_of_mem_replicate hb2]
    simp

lemma insertB_WF (D : Bytes → Bytes) :
    ∀ (fuel : Nat) (f : BufFilter) (item : Bytes) (s : List Nat),
    WFBuf f → WFBuf (insertB D fuel f item s).2.1 := by
  intro fuel
  induction fuel with
  | zero => intro f item s hWF; exact hWF
  | succ n ih =>
    intro f item s hWF
    simp only [insertB]
    split
    next heq => exact hWF
    next f1 heq => exact tryInsertB_WF heq hWF
    next f1 heq =>
      have hWF1 := tryInsertB_WF heq hWF
      split
      next heq2 => exact hWF1
      next f2 heq2 => exact tryInsertB_WF heq2 hWF1
      next f2 heq2 =>
        have hWF2 := tryInsertB_WF heq2 hWF1
        have hk := kickLoopB_WF D f2.maxKicks f2
          (if (draw s).1 % 2 = 0 then bufIndex D f item
            else bufAltIndex D f (bufFingerprint D f item) (bufIndex D f item))
          (bufFingerprint D f item) (draw s).2 hWF2
        split
        next f3 s2 heq3 =>
          rw [heq3] at hk
          exact hk.1
        next f3 s2 heq3 =>
          rw [heq3] at hk
          split
          next f4 heq4 =>
            have := resizeB_WF D f3
            rw [heq4] at this
            exact this
          next u f4 heq4 =>
            have h4 := resizeB_WF D f3
            rw [heq4] at h4
            exact ih f4 item s2 h4
        next e f3 s2 heq3 =>
          rw [heq3] at hk
          exact hk.1

lemma deleteB_WF (D : Bytes → Bytes) (f : BufFilter) (item : Bytes) (hWF : WFBuf f) :
    WFBuf (deleteB D f item).2 := by
  simp only [deleteB]
  split
  · exact hWF
  next b1 hb1 =>
    have hb1mem : b1 ∈ f.buckets := by
      obtain ⟨hlt, hbe⟩ := List.getElem?_eq_some_iff.mp hb1
      rw [← hbe]
      exact List.getElem_mem hlt
    split
    next i hi =>
      constructor
      · show (f.buckets.set _ (b1.eraseIdx i)).length = f.bucketCount
        rw [List.length_set]
        exact hWF.1
      · intro hbs b4 hb4
        have hb4b : b4 ∈ f.buckets.set (bufIndex D f item) (b1.eraseIdx i) := hb4
        rcases List.mem_or_eq_of_mem_set hb4b with hmem | heq
        · exact hWF.2 hbs b4 hmem
        · rw [heq]
          exact le_trans (List.length_eraseIdx_le _ _) (hWF.2 hbs b1 hb1mem)
    · split
      · exact hWF
      next b2 hb2 =>
        have hb2mem : b2 ∈ f.buckets := by
          obtain ⟨hlt, hbe⟩ := List.getElem?_eq_some_iff.mp hb2
          rw [← hbe]
          exact List.getElem_mem hlt
        split
        next j hj =>
          constructor
          · show (f.buckets.set _ (b2.eraseIdx j)).length = f.bucketCount
            rw [List.length_set]
            exact hWF.1
          · intro hbs b4 hb4
            have hb4b : b4 ∈ f.buckets.set _ (b2.eraseIdx j) := hb4
            rcases List.mem_or_eq_of_mem_set hb4b with hmem | heq
            · exact hWF.2 hbs b4 hmem
            · rw [heq]
              exact le_trans (List.length_eraseIdx_le _ _) (hWF.2 hbs b2 hb2mem)
        · exact hWF

/-- Every reachable buffer-variant state is well-formed. -/
lemma reachBuf_WF {D : Bytes → Bytes} {f : BufFilter} (h : ReachBuf D f) : WFBuf f := by
  induction h with
  | create hm =>
    constructor
    · exact List.length_replicate _ _
    · intro _ b hb
      have hb2 : b ∈ List.replicate _ ([] : List Bytes) := hb
      rw [List.eq_of_mem_replicate hb2]
      simp
  | insert fuel item s hr ih => exact insertB_WF D fuel _ item s ih
  | delete item hr ih => exact deleteB_WF D _ item ih

/-- The occupancy bound from well-formedness (buffer variant). -/
lemma statsItems_bound {f : BufFilter} (hWF : WFBuf f) (hbs : 0 < f.bucketSize) :
    statsItems f ≤ f.bucketCount * f.bucketSize := by
  unfold statsItems
  have h := List.sum_le_card_nsmul (f.buckets.map List.length) f.bucketSize (by
    intro x hx
    obtain ⟨b, hb, hbl⟩ := List.mem_map.mp hx
    rw [← hbl]
    exact hWF.2 hbs b hb)
  rw [List.length_map, hWF.1, smul_eq_mul] at h
  exact h

/-- The integer-variant occupancy bound from well-formedness. -/
lemma intSize_bound {f : IntFilter} (hWF : WFInt f) :
    0 ≤ f.size ∧ f.size ≤ ((f.capacity * f.bucketSize : Nat) : Int) := by
  by_cases hbs : 0 < f.bucketSize
  · have hsz := (hWF.2.2.1 hbs).2
    have hcnt : countOccupied f.buckets ≤ f.capacity * f.bucketSize := by
      unfold countOccupied
      have h := List.sum_le_card_nsmul
        (f.buckets.map (fun b => b.countP (fun v => !(v == JSVal.null)))) f.bucketSize (by
          intro x hx
          obtain ⟨b, hb, hbl⟩ := List.mem_map.mp hx
          rw [← hbl]
          exact le_trans (List.countP_le_length _) (le_of_eq ((hWF.2.2.1 hbs).1 b hb))
        )
      rw [List.length_map, hWF.2.1, smul_eq_mul] at h
      exact h
    rw [hsz]
    constructor
    · exact_mod_cast Nat.zero_le _
    · exact_mod_cast hcnt
  · have h0 := hWF.2.2.2 (by omega)
    rw [h0]
    constructor
    · rfl
    · exact_mod_cast Nat.zero_le _

/-- `getLoadFactor` never exceeds one on a well-formed state with a real
slot array. -/
lemma getLoadFactor_le_one {f : IntFilter} (hWF : WFInt f)
    (hpos : 0 < f.capacity * f.bucketSize) : getLoadFactor f ≤ 1 := by
  obtain ⟨h0, h1⟩ := intSize_bound hWF
  unfold getLoadFactor
  rw [div_le_one (by exact_mod_cast hpos)]
  have : (f.size : ℚ) ≤ ((f.capacity * f.bucketSize : Nat) : Int) := by
    exact_mod_cast h1
  exact_mod_cast this

/-- The JSON codec round-trips the bucket array exactly (fingerprint bytes
are below 256; hex encode/decode is the identity on them). -/
lemma jsonRoundTrip (f : BufFilter)
    (hbytes : ∀ b ∈ f.buckets, ∀ x ∈ b, ∀ c ∈ x, c < 256) :
    loadFromJSONB f (some (saveToJSONB f)) = (.ok (), f) := by
  unfold loadFromJSONB saveToJSONB
  have hinner : ∀ b ∈ f.buckets, (b.map toHex).map fromHex = b := by
    intro b hb
    rw [List.map_map]
    have h2 : ∀ x ∈ b, (fromHex ∘ toHex) x = id x := by
      intro x hx
      show fromHex (toHex x) = x
      exact fromHex_toHex (hbytes b hb x hx)
    rw [List.map_congr_left h2, List.map_id]
  have hmap : (f.buckets.map (fun b => b.map toHex)).map (fun b => b.map fromHex) =
      f.buckets := by
    rw [List.map_map]
    have h3 : ∀ b ∈ f.buckets, ((fun b => b.map fromHex) ∘ fun b => b.map toHex) b = id b := by
      intro b hb
      show (b.map toHex).map fromHex = b
      exact hinner b hb
    rw [List.map_congr_left h3, List.map_id]
  simp only []
  rw [hmap]

lemma insertInt_capacity {f : IntFilter} (h : ReachInt f) (item : Option (List Nat))
    (s : List Nat) : (insertInt f item s).2.1.capacity = f.capacity := by
  have hm := insertTr_main [] f item s TrackSt.gone (reachInt_WF h)
    (by intro hh; cases hh) (by intro bi pi hh; cases hh)
  rw [← insertTr_proj f item s TrackSt.gone]
  exact hm.2.1

/-! ## The claims -/

/-- C2 (confirmed): after an `insert X` that returns `true`, as long as no
subsequent operation has removed that specific fingerprint instance (ghost
state still `.res bi pi`), `lookup X` returns `true`. -/
theorem c2_no_false_negatives (X : List Nat) (f : IntFilter) (bi pi : Nat)
    (h : TrackedRun X f (TrackSt.res bi pi)) : lookupInt f (some X) = .ok true := by
  obtain ⟨hWF, hbs, hinv⟩ := trackedRun_main X f _ h
  obtain ⟨hbs2, hbilt, hpilt, hslot, hpair⟩ := hinv
  rw [lookupInt_eq f X _ _ rfl rfl]
  set fp : Int := genFingerprint f.fingerprintMask X with hfp
  set i1 : Int := jsRem (jsHash X : Int) (f.capacity : Int) with hi1
  have hg : getSecondBucketIndex f i1 (JSVal.num fp) =
      .ok (gIdx f.capacity (h2OfItem f X) i1) := rfl
  rw [hg]
  simp only []
  have hcapf : 0 < f.capacity := by
    obtain ⟨k, _, hk⟩ := hWF.1
    rw [hk]
    exact Nat.pos_pow_of_pos k (by norm_num)
  have hr1 : 0 ≤ i1 ∧ i1 < (f.capacity : Int) := itemIdx_range hcapf X
  have hlt1 : i1.toNat < f.buckets.length := by
    rw [hWF.2.1]
    omega
  have hbr1 : bucketsRead f i1 = some (f.buckets[i1.toNat]) := by
    unfold bucketsRead
    rw [if_neg (by omega)]
    exact List.getElem?_eq_getElem hlt1
  rcases hpair with hbi1 | hbi2
  · have hcont1 : containsFp f i1 (JSVal.num fp) = .ok true :=
      containsFp_at_tracked X f bi pi i1 hWF hbs hbilt hpilt hslot (by
        show itemIdx f X = (bi : Int)
        exact hbi1.symm)
    rw [hcont1]
  · cases hscan1 : scanSlot (f.buckets[i1.toNat])
        (fun v => v == JSVal.num fp) 0 f.bucketSize with
    | some j =>
      have hcont1 : containsFp f i1 (JSVal.num fp) = .ok true := by
        unfold containsFp
        rw [hbr1]
        simp only [hscan1]
      rw [hcont1]
    | none =>
      have hcont1 : containsFp f i1 (JSVal.num fp) = .ok false := by
        unfold containsFp
        rw [hbr1]
        simp only [hscan1]
      rw [hcont1]
      exact containsFp_at_tracked X f bi pi _ hWF hbs hbilt hpilt hslot hbi2.symm

/-- C2 witness: a concrete tracked run (fresh 4×4 filter, one insert of
item "a") on which `lookup` answers `true`. -/
theorem c2_no_false_negatives_witness : lookupInt c2State (some [97]) = .ok true := by
  refine c2_no_false_negatives [97] c2State 1 0 ?_
  have hrun : TrackedRun [97] (insertTr c2Base (some [97]) [] TrackSt.fly).1.2.1
      (TrackSt.res 1 0) := TrackedRun.start
    (ReachInt.create (show (4:Int) ≤ 2147483648 by norm_num)
      (show intCtor 4 4 8 500 = .ok c2Base from rfl))
    (show insertTr c2Base (some [97]) [] TrackSt.fly =
      ((insertTr c2Base (some [97]) [] TrackSt.fly).1, TrackSt.res 1 0) from rfl)
    (show ((insertTr c2Base (some [97]) [] TrackSt.fly).1, TrackSt.res 1 0).1.1 =
      .ok true from rfl)
  exact hrun

/-- C3 (corrected): the buffer variant indeed absorbs kick exhaustion --
`insert` never returns `false`, and an exhausted kick budget leads to a
`_resize` (doubling `bucketCount`) followed by exactly one retry of the
original item; the integer variant instead surfaces `false` and never
resizes (its capacity is constant across `insert`), refuting the claim as
stated for that implementation (`c3_kick_exhaustion_counterexample`). -/
theorem c3_kick_exhaustion_amended :
    (∀ (D : Bytes → Bytes) (fuel : Nat) (f : BufFilter) (item : Bytes) (s : List Nat),
      (insertB D fuel f item s).1 ≠ .ok false) ∧
    (∀ (D : Bytes → Bytes) (n : Nat) (f : BufFilter) (item : Bytes) (s : List Nat)
      (f1 f2 f3 : BufFilter) (s2 : List Nat) (u : Unit) (f4 : BufFilter),
      tryInsertB f (bufIndex D f item) (bufFingerprint D f item) = .ok (false, f1) →
      tryInsertB f1 (bufAltIndex D f (bufFingerprint D f item) (bufIndex D f item))
        (bufFingerprint D f item) = .ok (false, f2) →
      kickLoopB D f2 f2.maxKicks
        (if (draw s).1 % 2 = 0 then bufIndex D f item
          else bufAltIndex D f (bufFingerprint D f item) (bufIndex D f item))
        (bufFingerprint D f item) (draw s).2 = (.ok false, f3, s2) →
      resizeB D f3 = (.ok u, f4) →
      insertB D (n + 1) f item s = insertB D n f4 item s2 ∧
      f4.bucketCount = f3.bucketCount * 2) ∧
    (∀ (f : IntFilter) (item : Option (List Nat)) (s : List Nat), ReachInt f →
      (insertInt f item s).2.1.capacity = f.capacity) := by
  refine ⟨insertB_ne_false, ?_, ?_⟩
  · intro D n f item s f1 f2 f3 s2 u f4 h1 h2 hk hr
    exact insertB_retry D n f item s _ _ _ f1 f2 f3 s2 u f4 rfl rfl rfl h1 h2 hk hr
  · intro f item s h
    exact insertInt_capacity h item s

/-- C3 witness: the amended statement at concrete inputs (a one-bucket
zero-slot buffer filter whose kick budget is exhausted immediately, and the
one-bucket integer filter). -/
theorem c3_kick_exhaustion_amended_witness :
    (insertB c3D 1 c3BufF [] []).1 ≠ .ok false ∧
    (insertB c3D 1 c3BufF [] [] = insertB c3D 0 c3BufRes [] [] ∧
      c3BufRes.bucketCount = c3BufF.bucketCount * 2) ∧
    (insertInt c3F0 (some [97]) []).2.1.capacity = c3F0.capacity :=
  ⟨c3_kick_exhaustion_amended.1 c3D 1 c3BufF [] [],
   c3_kick_exhaustion_amended.2.1 c3D 0 c3BufF [] [] c3BufF c3BufF c3BufF [] () c3BufRes
     rfl rfl rfl rfl,
   c3_kick_exhaustion_amended.2.2 c3F0 (some [97]) []
     (ReachInt.create (by norm_num) (show intCtor 1 1 8 1 = .ok c3F0 from rfl))⟩

/-- C3 counterexample: on the integer variant, the second insert exhausts
the kick budget and returns `false` to the caller, with the capacity (and
hence the structure) unchanged -- no resize, no retry. -/
theorem c3_kick_exhaustion_counterexample :
    (insertInt c3F0 (some [97]) []).1 = .ok true ∧
    (insertInt c3F1 (some [98]) []).1 = .ok false ∧
    (insertInt c3F1 (some [98]) []).2.1.capacity = 1 :=
  ⟨rfl, rfl, rfl⟩

/-- C4 (code bug): a resize forced by kick exhaustion reseats each stored
fingerprint at `_index(fp.toString('hex'))` -- the hash of the fingerprint's
hex text rather than of the original item -- so previously inserted items
are no longer found: after inserting "a", "b" and then "d" into a 2×1
filter, the post-resize filter answers `false` for "a" and "b". -/
theorem c4_resize_loses_membership :
    containsB sha256 c4F2 [97] = .ok true ∧
    containsB sha256 c4F2 [98] = .ok true ∧
    (insertB sha256 2 c4F2 [100] []).1 = .ok true ∧
    c4F3.bucketCount = 4 ∧
    containsB sha256 c4F3 [97] = .ok false ∧
    containsB sha256 c4F3 [98] = .ok false :=
  ⟨rfl, rfl, rfl, rfl, rfl, rfl⟩

/-- C5 (corrected): the JSON codec round-trips exactly -- restoring from
`saveToJSON` output reproduces the bucket array verbatim, so `contains` and
the occupied count are preserved for every item; the parquet codec does not
(`c5_parquet_roundtrip_counterexample`). -/
theorem c5_json_roundtrip :
    ∀ f : BufFilter, (∀ b ∈ f.buckets, ∀ x ∈ b, ∀ c ∈ x, c < 256) →
    loadFromJSONB f (some (saveToJSONB f)) = (.ok (), f) ∧
    (∀ (D : Bytes → Bytes) (item : Bytes),
      containsB D (loadFromJSONB f (some (saveToJSONB f))).2 item = containsB D f item) ∧
    statsItems (loadFromJSONB f (some (saveToJSONB f))).2 = statsItems f := by
  intro f hb
  have h := jsonRoundTrip f hb
  refine ⟨h, ?_, ?_⟩
  · intro D item
    rw [h]
  · rw [h]

/-- C5 witness: the JSON round-trip on the concrete one-item filter. -/
theorem c5_json_roundtrip_witness :
    loadFromJSONB c5F (some (saveToJSONB c5F)) = (.ok (), c5F) ∧
    containsB sha256 (loadFromJSONB c5F (some (saveToJSONB c5F))).2 [97] =
      containsB sha256 c5F [97] :=
  ⟨(c5_json_roundtrip c5F (by decide)).1,
   (c5_json_roundtrip c5F (by decide)).2.1 sha256 [97]⟩

/-- C5 counterexample: persisting one item ("a") to parquet and restoring
into a fresh same-config filter flips `contains` to `false` (the load path
reseats by fingerprint hex), with the occupied count unchanged. -/
theorem c5_parquet_roundtrip_counterexample :
    containsB sha256 c5F [97] = .ok true ∧
    (loadFromParquetB sha256 c5F0 (saveToParquetB c5F) false).1 = .ok () ∧
    containsB sha256 c5R [97] = .ok false ∧
    statsItems c5R = statsItems c5F :=
  ⟨rfl, rfl, rfl, rfl⟩

/-- C6 (corrected): `loadFromJSON` is atomic -- a failed read/parse
surfaces the error with the in-memory filter untouched, and every
`loadFromParquet` ending in a storage error also surfaces it; but the
parquet loader mutates the filter before failing
(`c6_parquet_load_mutates`), refuting atomicity as claimed. -/
theorem c6_restore_atomicity_amended :
    (∀ f : BufFilter, loadFromJSONB f none = (.error .io, f)) ∧
    (∀ (D : Bytes → Bytes) (f : BufFilter) (recs : List Bytes),
      ∃ e, (loadFromParquetB D f recs true).1 = .error e) := by
  constructor
  · intro f
    rfl
  · intro D f recs
    unfold loadFromParquetB
    split
    next e f1 heq => exact ⟨e, rfl⟩
    next f1 heq => exact ⟨.io, rfl⟩

/-- C6 counterexample: a parquet load whose stream fails after delivering
one record reports the error but leaves the delivered fingerprint in the
bucket array -- the filter is mutated by the failed restore. -/
theorem c6_parquet_load_mutates :
    (loadFromParquetB sha256 c6F0 [[99]] true).1 = .error .io ∧
    (loadFromParquetB sha256 c6F0 [[99]] true).2 ≠ c6F0 :=
  ⟨rfl, by decide⟩

/-- C8 (corrected): on every reachable integer-variant state the `size`
field is between 0 and `capacity * bucketSize` and `getLoadFactor` never
exceeds one; the buffer-variant bound holds on reachable states with a
positive `bucketSize`.  With `bucketSize = 0` (which the unvalidated
buffer constructor accepts) the bound is false on a reachable state:
the kick swap appends a fingerprint to an empty bucket before its
`TypeError`, so `stats().items` exceeds `bucketCount * bucketSize`
(`c8_zero_bucket_counterexample`). -/
theorem c8_load_factor_bound :
    (∀ f : IntFilter, ReachInt f →
      0 ≤ f.size ∧ f.size ≤ ((f.capacity * f.bucketSize : Nat) : Int) ∧
      (0 < f.capacity * f.bucketSize → getLoadFactor f ≤ 1)) ∧
    (∀ (D : Bytes → Bytes) (f : BufFilter), ReachBuf D f → 0 < f.bucketSize →
      statsItems f ≤ f.bucketCount * f.bucketSize) := by
  constructor
  · intro f h
    have hWF := reachInt_WF h
    obtain ⟨h0, h1⟩ := intSize_bound hWF
    exact ⟨h0, h1, fun hpos => getLoadFactor_le_one hWF hpos⟩
  · intro D f h hbs
    exact statsItems_bound (reachBuf_WF h) hbs

/-- C8 witness: the bound at two concrete reachable states. -/
theorem c8_load_factor_bound_witness :
    (0 ≤ c3F1.size ∧ c3F1.size ≤ ((c3F1.capacity * c3F1.bucketSize : Nat) : Int) ∧
      (0 < c3F1.capacity * c3F1.bucketSize → getLoadFactor c3F1 ≤ 1)) ∧
    statsItems c5F ≤ c5F.bucketCount * c5F.bucketSize :=
  ⟨c8_load_factor_bound.1 c3F1
      (ReachInt.insert (some [97]) []
        (ReachInt.create (by norm_num) (show intCtor 1 1 8 1 = .ok c3F0 from rfl))),
   c8_load_factor_bound.2 sha256 c5F
      (ReachBuf.insert 1 [97] [] (ReachBuf.create (by norm_num))) (by decide)⟩

/-- C8 counterexample: a reachable buffer-variant state (constructed with
`bucketSize = 0`, one attempted insert) where the kick swap has written a
fingerprint before crashing, so the stored-fingerprint count exceeds
`bucketCount * bucketSize`. -/
theorem c8_zero_bucket_counterexample :
    ReachBuf sha256 c8F ∧ c8F.bucketCount * c8F.bucketSize = 0 ∧ statsItems c8F = 1 :=
  ⟨ReachBuf.insert 1 [97] [] (ReachBuf.create (by norm_num)), rfl, rfl⟩

/-- C9 (corrected): for reachable states with a positive `bucketSize` the
`size` field equals the number of non-null slots; with `bucketSize = 0` the
kick loop's crash path writes a slot without adjusting `size`, refuting the
unconditional claim (`c9_size_counter_counterexample`). -/
theorem c9_size_counter_amended :
    ∀ f : IntFilter, ReachInt f → 0 < f.bucketSize →
    f.size = (countOccupied f.buckets : Int) :=
  fun _ h hbs => ((reachInt_WF h).2.2.1 hbs).2

/-- C9 witness: the size/occupancy agreement on a concrete reachable
state. -/
theorem c9_size_counter_amended_witness :
    c3F1.size = (countOccupied c3F1.buckets : Int) :=
  c9_size_counter_amended c3F1
    (ReachInt.insert (some [97]) []
      (ReachInt.create (by norm_num) (show intCtor 1 1 8 1 = .ok c3F0 from rfl)))
    (by decide)

/-- C9 counterexample: with `bucketSize = 0` (accepted by the constructor),
an insert crashes with a `TypeError` after the kick swap has already
written a fingerprint into a bucket: the state now has one occupied slot
while `size` is still 0. -/
theorem c9_size_counter_counterexample :
    (insertInt c9F (some [97]) []).1 = .error .typeError ∧
    (insertInt c9F (some [97]) []).2.1.size = 0 ∧
    countOccupied (insertInt c9F (some [97]) []).2.1.buckets = 1 :=
  ⟨rfl, rfl, rfl⟩

/-- C10 (confirmed): `insert` of a null/undefined item throws without
mutating the filter, while `lookup` and `remove` return `false` without
raising and without mutation. -/
theorem c10_null_item_handling :
    ∀ (f : IntFilter) (s : List Nat),
      insertInt f none s = (.error .nullInsert, f, s) ∧
      lookupInt f none = .ok false ∧
      removeInt f none = (.ok false, f) :=
  fun _ _ => ⟨rfl, rfl, rfl⟩
